import Mathlib

/-
Verification development for the GHB (global history buffer) prefetch
predictor found in src/mem/cache/prefetch/ghb_history.{hh,cc} and
src/mem/cache/prefetch/ghb.cc. The state of the C++ class GHBHistory is
embedded as a Lean structure; each C++ member function becomes a pure
Lean function on that state. Machine integers are modelled as Nat and
Int, with explicit reduction modulo 2 ^ 64 where the C++ relies on
64-bit wraparound of signed 64-bit arithmetic. The int32_t predecessor sentinel -1
of LinkInfo::prev is modelled as Option Nat (none standing for -1), and
the std::unordered_map indices are modelled as functions into Option.
-/

set_option maxHeartbeats 1000000

namespace GHB

/-- Correlation key kinds of GHBHistory: by instruction pointer (PC) or by
containing page. Mirrors the C++ enum class CorrelationKey. -/
inductive CorrelationKey where
  | PC
  | Page
deriving DecidableEq, Repr

/-- One correlation link stored in a history entry; mirrors the C++ struct
LinkInfo. The C++ field prev is an int32_t slot index with -1 meaning no
predecessor; it is modelled as Option Nat. -/
structure LinkInfo where
  prev : Option Nat
  prevSeq : Nat
  keyValue : Nat
  keyValid : Bool
deriving DecidableEq, Repr

instance : Inhabited LinkInfo := ⟨⟨none, 0, 0, false⟩⟩

/-- One slot of the circular history buffer; mirrors the C++ struct GHBEntry.
The std::array of two links is modelled as the two fields linkPC and
linkPage. -/
structure GHBEntry where
  addr : Nat
  linkPC : LinkInfo
  linkPage : LinkInfo
  seq : Nat
deriving DecidableEq, Repr

instance : Inhabited GHBEntry := ⟨⟨0, default, default, 0⟩⟩

/-- Read the link of an entry for a given correlation key kind. -/
def GHBEntry.link (e : GHBEntry) : CorrelationKey → LinkInfo
  | .PC => e.linkPC
  | .Page => e.linkPage

/-- Replace the link of an entry for a given correlation key kind. -/
def GHBEntry.setLink (e : GHBEntry) : CorrelationKey → LinkInfo → GHBEntry
  | .PC, l => { e with linkPC := l }
  | .Page, l => { e with linkPage := l }

/-- One distribution of the learned pattern table; mirrors the C++ struct
PatternEntry. The std::unordered_map from next delta to count is modelled
as an association list (iteration order in the C++ map is unspecified).
Both the stored counts and the running total are uint32_t in the C++ and
are modelled as Nat whose increments are reduced modulo 2 ^ 32. -/
structure PatternEntry where
  counts : List (Int × Nat)
  total : Nat
deriving DecidableEq, Repr

/-- One observed access; mirrors the C++ struct AccessInfo. -/
structure AccessInfo where
  addr : Nat
  pc : Option Nat
deriving DecidableEq, Repr

/-- The full state of the C++ class GHBHistory: configuration fields, the
history vector, the two correlation index maps (modelled as one function
over the key kind), the write head, the filled flag, the sequence counter
and the learned pattern table. -/
@[ext]
structure GHBHistory where
  historySize : Nat
  patternLength : Nat
  degree : Nat
  usePC : Bool
  pageBytes : Nat
  confidenceThreshold : Nat
  history : List GHBEntry
  index : CorrelationKey → Nat → Option Nat
  head : Nat
  filled : Bool
  sequenceCounter : Nat
  patternTable : Int × Int → Option PatternEntry

/-- The empty correlation index (both kinds map every key value to nothing). -/
def emptyIndex : CorrelationKey → Nat → Option Nat := fun _ _ => none

/-- The empty pattern table. -/
def emptyPatternTable : Int × Int → Option PatternEntry := fun _ => none

/-- The C++ constructor GHBHistory::GHBHistory: clamps every size-like
parameter to at least 1 (confidence to at most 100), allocates the history
vector, and initialises head, filled and the sequence counter. -/
def mkGHBHistory (history_size pattern_length degree_ : Nat) (use_pc : Bool)
    (page_bytes confidence_threshold : Nat) : GHBHistory :=
  { historySize := max 1 history_size
    patternLength := max 1 pattern_length
    degree := max 1 degree_
    usePC := use_pc
    pageBytes := max 1 page_bytes
    confidenceThreshold := min 100 confidence_threshold
    history := List.replicate (max 1 history_size) default
    index := emptyIndex
    head := 0
    filled := false
    sequenceCounter := 1
    patternTable := emptyPatternTable }

/-- Read history slot i (C++ history[i]; reads are always in range in the
source, the default entry totalises the access). -/
def GHBHistory.entryAt (st : GHBHistory) (i : Nat) : GHBEntry :=
  st.history.getD i default

/-- GHBHistory::empty. -/
def GHBHistory.empty (st : GHBHistory) : Bool := st.historySize == 0

/-- GHBHistory::computePage: address divided by the page size. -/
def GHBHistory.computePage (st : GHBHistory) (addr : Nat) : Nat :=
  addr / st.pageBytes

/-- GHBHistory::reset: clear every entry, both index maps, head, filled, the
sequence counter (back to 1) and the pattern table. -/
def GHBHistory.reset (st : GHBHistory) : GHBHistory :=
  { st with
    history := st.history.map (fun _ => default)
    index := emptyIndex
    head := 0
    filled := false
    sequenceCounter := 1
    patternTable := emptyPatternTable }

/-- Pointwise update of the correlation index for one key kind and key
value (models writing or erasing one unordered_map entry). -/
def updIdx (f : CorrelationKey → Nat → Option Nat) (k : CorrelationKey)
    (v : Nat) (r : Option Nat) : CorrelationKey → Nat → Option Nat :=
  fun k2 v2 => if k2 = k ∧ v2 = v then r else f k2 v2

/-- Overwrite the link of one key kind in history slot `slot`. -/
def GHBHistory.setLinkAt (st : GHBHistory) (slot : Nat) (key : CorrelationKey)
    (l : LinkInfo) : GHBHistory :=
  { st with history := st.history.set slot ((st.entryAt slot).setLink key l) }

/-- The body of the per-key loop of GHBHistory::removeIndexMappings: if the
link of the victim slot for `key` is valid, erase the index mapping for its key
value when that mapping still points at the victim, and clear the valid flag of the link. -/
def GHBHistory.removeOne (st : GHBHistory) (slot : Nat)
    (key : CorrelationKey) : GHBHistory :=
  let l := (st.entryAt slot).link key
  if l.keyValid then
    { st.setLinkAt slot key { l with keyValid := false } with
      index := fun k2 v2 =>
        if k2 = key ∧ v2 = l.keyValue ∧ st.index key l.keyValue = some slot
        then none else st.index k2 v2 }
  else st

/-- GHBHistory::removeIndexMappings: run the removal for both key kinds. -/
def GHBHistory.removeIndexMappings (st : GHBHistory) (slot : Nat) : GHBHistory :=
  (st.removeOne slot .PC).removeOne slot .Page

/-- GHBHistory::evictIndex simply forwards to removeIndexMappings. -/
def GHBHistory.evictIndex (st : GHBHistory) (slot : Nat) : GHBHistory :=
  st.removeIndexMappings slot

/-- GHBHistory::assignCorrelation: wire the link of `slot` for `key` to the
current index mapping of `value` (recording the current
sequence number of that predecessor), then redirect the index mapping of `value` to `slot`. -/
def GHBHistory.assignCorrelation (st : GHBHistory) (slot : Nat)
    (key : CorrelationKey) (value : Nat) : GHBHistory :=
  let prev := st.index key value
  let link : LinkInfo :=
    { prev := prev
      prevSeq := match prev with
        | some p => (st.entryAt p).seq
        | none => 0
      keyValue := value
      keyValid := true }
  let st1 := st.setLinkAt slot key link
  { st1 with index := updIdx st1.index key value (some slot) }

/-- The entry-write step of GHBHistory::insert: store the address and a
freshly assigned sequence number into `slot` and advance the counter. -/
def GHBHistory.writeEntry (st : GHBHistory) (slot : Nat) (addr : Nat) :
    GHBHistory :=
  { st with
    history := st.history.set slot
      { st.entryAt slot with addr := addr, seq := st.sequenceCounter }
    sequenceCounter := st.sequenceCounter + 1 }

/-- The PC-link step of GHBHistory::insert: wire a PC link when PC
correlation is enabled and the access carries a PC, otherwise store the
default (invalid) link. -/
def GHBHistory.linkStagePC (st : GHBHistory) (slot : Nat)
    (access : AccessInfo) : GHBHistory :=
  match access.pc with
  | some pcv =>
    if st.usePC then st.assignCorrelation slot .PC pcv
    else st.setLinkAt slot .PC default
  | none => st.setLinkAt slot .PC default

/-- The final step of GHBHistory::insert: advance the write head circularly
and raise the filled flag when it wraps to zero. -/
def GHBHistory.advanceHead (st : GHBHistory) (slot : Nat) : GHBHistory :=
  let newHead := (slot + 1) % st.historySize
  { st with
    head := newHead
    filled := if newHead = 0 then true else st.filled }

/-- GHBHistory::insert: returns -1 when the capacity field is zero;
otherwise evicts the index mappings of the head slot when the buffer has
wrapped, writes the access into the head slot with a fresh sequence
number, wires the PC and page links, advances the head and returns the
written slot. -/
def GHBHistory.insert (st : GHBHistory) (access : AccessInfo) :
    Int × GHBHistory :=
  if st.historySize = 0 then (-1, st)
  else
    let st1 := if st.filled then st.removeIndexMappings st.head else st
    let slot := st1.head
    let st2 := st1.writeEntry slot access.addr
    let st3 := st2.linkStagePC slot access
    let st4 := st3.assignCorrelation slot .Page (st3.computePage access.addr)
    ((slot : Int), st4.advanceHead slot)

/-- Signed 64-bit difference of two unsigned addresses, as computed by the
C++ expression int64_t(entry.addr) - int64_t(prev_entry.addr) under
wraparound of signed 64-bit arithmetic. -/
def signedDelta (a b : Nat) : Int :=
  let r := ((a : Int) - (b : Int)) % (2 ^ 64 : Int)
  if r < 2 ^ 63 then r else r - 2 ^ 64

/-- The while loop of GHBHistory::buildPattern, with the remaining number of
deltas still to collect as fuel: stop on a missing predecessor or on a
stale link (recorded predecessor sequence differs from the predecessor
slot), otherwise append the signed delta and
move to the predecessor. -/
def GHBHistory.walk (st : GHBHistory) (key : CorrelationKey) :
    Nat → Nat → List Int
  | _, 0 => []
  | cur, fuel + 1 =>
    let entry := st.entryAt cur
    let link := entry.link key
    match link.prev with
    | none => []
    | some p =>
      let prevEntry := st.entryAt p
      if prevEntry.seq ≠ link.prevSeq then []
      else signedDelta entry.addr prevEntry.addr :: st.walk key p fuel

/-- GHBHistory::buildPattern: reject an out-of-range slot index, otherwise
walk the correlation chain collecting at most patternLength deltas; the
Bool result is the C++ return value (false exactly on the empty list). -/
def GHBHistory.buildPattern (st : GHBHistory) (index : Int)
    (key : CorrelationKey) : List Int × Bool :=
  if index < 0 ∨ (st.history.length : Int) ≤ index then ([], false)
  else
    let deltas := st.walk key index.toNat st.patternLength
    (deltas, !deltas.isEmpty)

/-- Sum of the stored counts of a distribution. -/
def countsSum (cs : List (Int × Nat)) : Nat := (cs.map (fun p => p.2)).sum

/-- Count stored for one next-delta in a distribution (0 when absent);
models reading the C++ counts map. -/
def countOf : List (Int × Nat) → Int → Nat
  | [], _ => 0
  | (k, c) :: rest, d => if k = d then c else countOf rest d

/-- Increment by one the count of one next-delta in a distribution
(inserting it at count 1 when absent); models counts[delta]++ on the
uint32_t count, so the increment wraps modulo 2 ^ 32. -/
def bumpCounts : List (Int × Nat) → Int → List (Int × Nat)
  | [], d => [(d, 1)]
  | (k, c) :: rest, d =>
    if k = d then (k, (c + 1) % 2 ^ 32) :: rest
    else (k, c) :: bumpCounts rest d

/-- One iteration of the loop of GHBHistory::updatePatternTable: under the
key `t.1`, increment the count of next-delta `t.2` and the running total
(default-constructing the entry when the key is new); total++ acts on a
uint32_t, so it wraps modulo 2 ^ 32. -/
def bumpTable (tbl : Int × Int → Option PatternEntry)
    (t : (Int × Int) × Int) : Int × Int → Option PatternEntry :=
  let e := (tbl t.1).getD { counts := [], total := 0 }
  fun k =>
    if k = t.1 then
      some { counts := bumpCounts e.counts t.2
             total := (e.total + 1) % 2 ^ 32 }
    else tbl k

/-- The consecutive triples (d i, d (i+1), d (i+2)) of a delta list, keyed
by the leading pair, exactly as enumerated by the loop of
GHBHistory::updatePatternTable. -/
def triples (chron : List Int) : List ((Int × Int) × Int) :=
  (chron.zip (chron.drop 1)).zip (chron.drop 2)

/-- GHBHistory::updatePatternTable: no-op on fewer than 3 deltas, otherwise
fold the triple-bump over every consecutive triple. -/
def GHBHistory.updatePatternTable (st : GHBHistory)
    (chronological : List Int) : GHBHistory :=
  if chronological.length < 3 then st
  else { st with
    patternTable := (triples chronological).foldl bumpTable st.patternTable }

/-- Pick an entry of maximal count from a distribution; models the C++
descending std::sort followed by taking the front element. Which maximal
entry the C++ picks depends on the unordered_map iteration order (ties are
unspecified); this model keeps the earliest of the tied entries. -/
def selectMax : List (Int × Nat) → Option (Int × Nat)
  | [] => none
  | p :: rest =>
    match selectMax rest with
    | none => some p
    | some q => if q.2 > p.2 then some q else some p

/-- The lookup key of GHBHistory::findPatternMatch: the pair of the
second-to-last and last chronological deltas. -/
def patternKey (chronological : List Int) : Int × Int :=
  (chronological.getD (chronological.length - 2) 0, chronological.getLastD 0)

/-- GHBHistory::findPatternMatch: fail on fewer than 2 deltas, an unseen
key, or a zero running total; otherwise predict a single next-delta of
maximal observed count. The Bool result is the C++ return value. -/
def GHBHistory.findPatternMatch (st : GHBHistory)
    (chronological : List Int) : List Int × Bool :=
  if chronological.length < 2 then ([], false)
  else
    match st.patternTable (patternKey chronological) with
    | none => ([], false)
    | some e =>
      if e.total = 0 then ([], false)
      else
        match selectMax e.counts with
        | none => ([], false)
        | some q => ([q.1], true)

/-- GHBHistory::fallbackPattern (a const member reading no state): the most
recent chronological delta, suppressed when it is zero or the list is
empty. -/
def fallbackPattern (chronological : List Int) : List Int :=
  match chronological.getLast? with
  | none => []
  | some d => if d ≠ 0 then [d] else []

/-- 64-bit wraparound addition of a signed delta to an unsigned address, as
computed by Addr(int64_t(next_addr) + delta) in
GHBPrefetcher::calculatePrefetch. -/
def addDelta (a : Nat) (d : Int) : Nat :=
  (((a : Int) + d) % (2 ^ 64 : Int)).toNat

/-- Modelled from the spec: the samePage helper of the Queued prefetcher
base class is not part of the sources of this repository; the spec says a
candidate is kept only if it lies on the same page as the original block
address, i.e. the two addresses have equal page indices. -/
def samePage (pageBytes a b : Nat) : Bool := a / pageBytes == b / pageBytes

/-- The candidate-generation loop of GHBPrefetcher::calculatePrefetch: skip
zero deltas, cumulatively add each remaining delta to the running address,
and emplace the candidate with priority 0 (the minimum) only when it stays
on the page of the original block address. -/
def genLoop (pageBytes blockAddr : Nat) : Nat → List Int → List (Nat × Nat)
  | _, [] => []
  | next, d :: rest =>
    if d = 0 then genLoop pageBytes blockAddr next rest
    else
      let n := addDelta next d
      if samePage pageBytes blockAddr n then
        (n, 0) :: genLoop pageBytes blockAddr n rest
      else genLoop pageBytes blockAddr n rest

/-- The address-generation tail of GHBPrefetcher::calculatePrefetch, applied
to the block address of the triggering access and the predicted deltas. -/
def calculatePrefetchAddrs (pageBytes blockAddr : Nat)
    (predicted : List Int) : List (Nat × Nat) :=
  genLoop pageBytes blockAddr blockAddr predicted

/-- The cumulative candidate addresses named by the spec: starting from the
block address, repeatedly add each delta, one candidate per delta. -/
def specCandidates (cur : Nat) : List Int → List Nat
  | [] => []
  | d :: rest => addDelta cur d :: specCandidates (addDelta cur d) rest

/-- Written from the specification text of the Pattern Builder: starting at
`cur` with `collected` deltas already gathered, stop when `maxLength`
deltas have been collected, when the link has no predecessor, or when the
recorded predecessor-sequence of the link differs from the current
sequence number of the predecessor slot; otherwise append the signed delta
(entry address minus predecessor address) and move to the predecessor. -/
def specChainWalk (st : GHBHistory) (key : CorrelationKey) (maxLength : Nat)
    (cur collected : Nat) : List Int :=
  if maxLength ≤ collected then []
  else
    match ((st.entryAt cur).link key).prev with
    | none => []
    | some p =>
      if (st.entryAt p).seq ≠ ((st.entryAt cur).link key).prevSeq then []
      else signedDelta (st.entryAt cur).addr (st.entryAt p).addr ::
        specChainWalk st key maxLength p (collected + 1)
termination_by maxLength - collected
decreasing_by simp_wf; omega

/-- The state-mutating operations of the predictor. -/
inductive Op where
  | insertOp (a : AccessInfo)
  | resetOp
  | updateOp (chron : List Int)

/-- Apply one operation to a predictor state. -/
def applyOp (st : GHBHistory) : Op → GHBHistory
  | .insertOp a => (st.insert a).2
  | .resetOp => st.reset
  | .updateOp chron => st.updatePatternTable chron

/-- Apply a sequence of operations, oldest first. -/
def applyOps (st : GHBHistory) (ops : List Op) : GHBHistory :=
  ops.foldl applyOp st

/-- The predictor states reachable from some construction by any sequence
of mutating operations. -/
inductive Reachable : GHBHistory → Prop where
  | init : ∀ h p d u pb c, Reachable (mkGHBHistory h p d u pb c)
  | insertStep : ∀ st a, Reachable st → Reachable (st.insert a).2
  | resetStep : ∀ st, Reachable st → Reachable st.reset
  | updateStep : ∀ st chron, Reachable st → Reachable (st.updatePatternTable chron)

/-! ### Basic list and table helper lemmas -/

theorem getD_set_self {α : Type} [Inhabited α] (l : List α) (i : Nat) (e : α)
    (h : i < l.length) : (l.set i e).getD i default = e := by
  induction l generalizing i with
  | nil => simp at h
  | cons x xs ih =>
    cases i with
    | zero => simp
    | succ n =>
      simp only [List.set_cons_succ, List.getD_cons_succ]
      exact ih n (by simpa using h)

theorem getD_set_ne {α : Type} [Inhabited α] (l : List α) (i j : Nat) (e : α)
    (h : j ≠ i) : (l.set i e).getD j default = l.getD j default := by
  induction l generalizing i j with
  | nil => simp
  | cons x xs ih =>
    cases i with
    | zero =>
      cases j with
      | zero => exact absurd rfl h
      | succ m => simp
    | succ n =>
      cases j with
      | zero => simp
      | succ m =>
        simp only [List.set_cons_succ, List.getD_cons_succ]
        exact ih n m (fun hc => h (by omega))

theorem getD_map_default (l : List GHBEntry) (i : Nat) :
    (l.map (fun _ => (default : GHBEntry))).getD i default = default := by
  induction l generalizing i with
  | nil => simp
  | cons x xs ih =>
    cases i with
    | zero => simp
    | succ n => simp only [List.map_cons, List.getD_cons_succ]; exact ih n

theorem map_const_eq_replicate (l : List GHBEntry) :
    l.map (fun _ => (default : GHBEntry)) = List.replicate l.length default := by
  induction l with
  | nil => simp
  | cons x xs ih => simp [List.replicate, ih]

theorem triples_nil (chron : List Int) (h : chron.length < 3) :
    triples chron = [] := by
  unfold triples
  have hd : chron.drop 2 = [] := List.drop_eq_nil_of_le (by omega)
  rw [hd, List.zip_nil_right]

/-! ### Claim C10: out-of-range slot indices are rejected -/

/-- C10: for every slot index that is negative or at least the history
length, buildPattern returns failure with an empty delta list; the walk
never starts (captured here by the result being computed before any slot
is read). -/
theorem buildPattern_out_of_range (st : GHBHistory) (index : Int)
    (key : CorrelationKey)
    (h : index < 0 ∨ (st.history.length : Int) ≤ index) :
    st.buildPattern index key = ([], false) := by
  unfold GHBHistory.buildPattern
  exact if_pos h

theorem buildPattern_out_of_range_witness :
    ((-1 : Int) < 0 ∨ ((mkGHBHistory 16 4 2 true 64 50).history.length : Int) ≤ -1) ∧
    (mkGHBHistory 16 4 2 true 64 50).buildPattern (-1) .PC = ([], false) :=
  ⟨Or.inl (by decide),
   buildPattern_out_of_range (mkGHBHistory 16 4 2 true 64 50) (-1) .PC
     (Or.inl (by decide))⟩

/-! ### Claim C8: fallback prediction -/

/-- C8: for every non-empty chronological delta list, fallbackPattern
returns exactly the last delta when it is non-zero and nothing when the
last delta is zero; in particular [16, 8, 4] falls back to predicting 4. -/
theorem fallbackPattern_spec :
    (∀ chron : List Int, ∀ h : chron ≠ [],
      fallbackPattern chron =
        if chron.getLast h ≠ 0 then [chron.getLast h] else []) ∧
    fallbackPattern [16, 8, 4] = [4] := by
  constructor
  · intro chron h
    unfold fallbackPattern
    rw [List.getLast?_eq_getLast chron h]
  · rfl

theorem fallbackPattern_spec_witness :
    ([16, 8, 4] : List Int) ≠ [] ∧ fallbackPattern [16, 8, 4] = [4] := by
  refine ⟨by decide, ?_⟩
  have h := fallbackPattern_spec.1 [16, 8, 4] (by decide)
  simpa using h

/-! ### Claim C3: the zero-capacity story (corrected) -/

/-- C3 counterexample: a predictor constructed with requested history
capacity zero is not degraded to a no-op: empty reports the predictor
enabled and insert succeeds, returning slot 0 rather than the sentinel. -/
theorem zero_capacity_counterexample :
    (mkGHBHistory 0 4 2 true 64 50).empty = false ∧
    ((mkGHBHistory 0 4 2 true 64 50).insert ⟨0, none⟩).1 = 0 := by
  constructor
  · rfl
  · rfl

/-- C3 amended: the constructor clamps the capacity to at least one, so
every constructed predictor reports itself enabled; insert returns the
sentinel -1 exactly when the stored capacity field is zero (a state no
construction produces), and empty reports disabled exactly in that same
state. -/
theorem zero_capacity_amended :
    (∀ h p d u pb c, 1 ≤ (mkGHBHistory h p d u pb c).historySize) ∧
    (∀ h p d u pb c, (mkGHBHistory h p d u pb c).empty = false) ∧
    (∀ st : GHBHistory, ∀ a : AccessInfo,
      ((st.insert a).1 = -1 ↔ st.historySize = 0)) ∧
    (∀ st : GHBHistory, (st.empty = true ↔ st.historySize = 0)) := by
  refine ⟨?_, ?_, ?_, ?_⟩
  · intro h p d u pb c
    simp [mkGHBHistory]
  · intro h p d u pb c
    simp [mkGHBHistory, GHBHistory.empty]
  · intro st a
    by_cases hz : st.historySize = 0
    · simp [GHBHistory.insert, hz]
    · simp only [GHBHistory.insert, if_neg hz]
      constructor
      · intro hc
        exfalso
        omega
      · intro hc
        exact absurd hc hz
  · intro st
    simp [GHBHistory.empty]

theorem zero_capacity_amended_witness :
    ((mkGHBHistory 2 4 2 true 64 50).insert ⟨0, none⟩).1 = -1 ↔
      (mkGHBHistory 2 4 2 true 64 50).historySize = 0 :=
  zero_capacity_amended.2.2.1 (mkGHBHistory 2 4 2 true 64 50) ⟨0, none⟩

/-! ### Claim C5: the pattern-table learning step -/

/-- Count stored in a table under key k for next-delta d (0 when the key or
the delta is absent). -/
def tblCount (tbl : Int × Int → Option PatternEntry) (k : Int × Int)
    (d : Int) : Nat :=
  countOf ((tbl k).getD { counts := [], total := 0 }).counts d

/-- Running total stored in a table under key k (0 when the key is absent). -/
def tblTotal (tbl : Int × Int → Option PatternEntry) (k : Int × Int) : Nat :=
  ((tbl k).getD { counts := [], total := 0 }).total

/-- Number of triples in a list carrying key k and next-delta d. -/
def countT : List ((Int × Int) × Int) → (Int × Int) → Int → Nat
  | [], _, _ => 0
  | t :: rest, k, d => (if t.1 = k ∧ t.2 = d then 1 else 0) + countT rest k d

/-- Number of triples in a list carrying key k. -/
def countK : List ((Int × Int) × Int) → (Int × Int) → Nat
  | [], _ => 0
  | t :: rest, k => (if t.1 = k then 1 else 0) + countK rest k

theorem countOf_bumpCounts (cs : List (Int × Nat)) (c d : Int) :
    countOf (bumpCounts cs c) d
      = if d = c then (countOf cs d + 1) % 2 ^ 32 else countOf cs d := by
  induction cs with
  | nil =>
    rcases eq_or_ne d c with h | h
    · simp only [bumpCounts, countOf, h, if_pos rfl]
      norm_num
    · simp [bumpCounts, countOf, h, Ne.symm h]
  | cons p rest ih =>
    obtain ⟨k, cnt⟩ := p
    by_cases hk : k = c
    · by_cases hd : k = d
      · have hdc : d = c := by rw [← hd]; exact hk
        simp [bumpCounts, countOf, hk, hd, hdc]
      · have hdc : ¬ d = c := by
          intro hcc
          exact hd (by rw [hk, ← hcc])
        simp [bumpCounts, countOf, hk, hd, hdc,
          show ¬ c = d from fun hcc => hdc (Eq.symm hcc)]
    · by_cases hd : k = d
      · have hdc : ¬ d = c := by
          intro hcc
          exact hk (by rw [hd, hcc])
        simp [bumpCounts, countOf, hk, hd, hdc]
      · simp [bumpCounts, countOf, hk, hd, ih]

theorem countsSum_bumpCounts_mod (cs : List (Int × Nat)) (c : Int) :
    countsSum (bumpCounts cs c) % 2 ^ 32 = (countsSum cs + 1) % 2 ^ 32 := by
  induction cs with
  | nil => simp [bumpCounts, countsSum]
  | cons p rest ih =>
    obtain ⟨k, cnt⟩ := p
    have hM : (2 : Nat) ^ 32 = 4294967296 := by norm_num
    by_cases hk : k = c
    · simp only [bumpCounts, if_pos hk]
      simp only [countsSum, List.map_cons, List.sum_cons]
      rw [hM]
      omega
    · simp only [bumpCounts, if_neg hk]
      simp only [countsSum, List.map_cons, List.sum_cons] at ih ⊢
      rw [hM] at ih ⊢
      omega

theorem bumpTable_count (tbl : Int × Int → Option PatternEntry)
    (t : (Int × Int) × Int) (k : Int × Int) (d : Int) :
    tblCount (bumpTable tbl t) k d
      = if t.1 = k ∧ t.2 = d then (tblCount tbl k d + 1) % 2 ^ 32
        else tblCount tbl k d := by
  by_cases hk : k = t.1
  · simp only [tblCount, bumpTable, hk, if_pos rfl, Option.getD_some]
    rw [countOf_bumpCounts]
    by_cases hd : d = t.2
    · simp [hd]
    · simp [hd, show ¬ t.2 = d from fun hc => hd (Eq.symm hc)]
  · have hne : ¬ (t.1 = k ∧ t.2 = d) := fun hc => hk (Eq.symm hc.1)
    simp only [tblCount, bumpTable, if_neg hk, if_neg hne]

theorem bumpTable_total (tbl : Int × Int → Option PatternEntry)
    (t : (Int × Int) × Int) (k : Int × Int) :
    tblTotal (bumpTable tbl t) k
      = if t.1 = k then (tblTotal tbl k + 1) % 2 ^ 32
        else tblTotal tbl k := by
  by_cases hk : k = t.1
  · simp [tblTotal, bumpTable, hk]
  · have hne : ¬ t.1 = k := fun hc => hk (Eq.symm hc)
    simp only [tblTotal, bumpTable, if_neg hk, if_neg hne]

theorem bumpTable_ne (tbl : Int × Int → Option PatternEntry)
    (t : (Int × Int) × Int) (k : Int × Int) (h : ¬ t.1 = k) :
    bumpTable tbl t k = tbl k := by
  simp only [bumpTable]
  rw [if_neg (fun hc => h (Eq.symm hc))]

theorem foldl_bump_count (l : List ((Int × Int) × Int))
    (tbl : Int × Int → Option PatternEntry) (k : Int × Int) (d : Int) :
    tblCount (l.foldl bumpTable tbl) k d
      = if countT l k d = 0 then tblCount tbl k d
        else (tblCount tbl k d + countT l k d) % 2 ^ 32 := by
  induction l generalizing tbl with
  | nil => simp [countT]
  | cons t rest ih =>
    simp only [List.foldl_cons, countT]
    rw [ih (bumpTable tbl t), bumpTable_count]
    have hM : (2 : Nat) ^ 32 = 4294967296 := by norm_num
    rw [hM]
    by_cases ht : t.1 = k ∧ t.2 = d
    · simp only [if_pos ht]
      by_cases hn : countT rest k d = 0
      · rw [if_pos hn, hn, if_neg (by omega : ¬ 1 + 0 = 0)]
      · rw [if_neg hn, if_neg (by omega : ¬ 1 + countT rest k d = 0)]
        omega
    · simp only [if_neg ht]
      simp

theorem foldl_bump_total (l : List ((Int × Int) × Int))
    (tbl : Int × Int → Option PatternEntry) (k : Int × Int) :
    tblTotal (l.foldl bumpTable tbl) k
      = if countK l k = 0 then tblTotal tbl k
        else (tblTotal tbl k + countK l k) % 2 ^ 32 := by
  induction l generalizing tbl with
  | nil => simp [countK]
  | cons t rest ih =>
    simp only [List.foldl_cons, countK]
    rw [ih (bumpTable tbl t), bumpTable_total]
    have hM : (2 : Nat) ^ 32 = 4294967296 := by norm_num
    rw [hM]
    by_cases ht : t.1 = k
    · simp only [if_pos ht]
      by_cases hn : countK rest k = 0
      · rw [if_pos hn, hn, if_neg (by omega : ¬ 1 + 0 = 0)]
      · rw [if_neg hn, if_neg (by omega : ¬ 1 + countK rest k = 0)]
        omega
    · simp only [if_neg ht]
      simp

theorem foldl_bump_frame (l : List ((Int × Int) × Int))
    (tbl : Int × Int → Option PatternEntry) (k : Int × Int)
    (h : countK l k = 0) : l.foldl bumpTable tbl k = tbl k := by
  induction l generalizing tbl with
  | nil => rfl
  | cons t rest ih =>
    simp only [countK] at h
    have ht : ¬ t.1 = k := by
      intro hc
      rw [if_pos hc] at h
      omega
    have hr : countK rest k = 0 := by
      rw [if_neg ht] at h
      omega
    simp only [List.foldl_cons]
    rw [ih _ hr, bumpTable_ne _ _ _ ht]

/-- Example state whose pattern table holds the uint32_t maximum 2 ^ 32 - 1
as the count and total under key (0, 0); the C++ reaches this state after
2 ^ 32 - 1 training steps on that pattern. Used by the C5 counterexample. -/
def exWrapState : GHBHistory :=
  { mkGHBHistory 2 4 1 true 64 50 with
    patternTable := fun kk =>
      if kk = ((0 : Int), (0 : Int)) then
        some { counts := [((0 : Int), 4294967295)], total := 4294967295 }
      else none }

/-- C5 counterexample: the counts are wrapping uint32_t, so updating the
table does not always increment a count by one and counts are not
monotone: the triple (0, 0, 0) hits a count stored at 2 ^ 32 - 1 and the
count wraps to 0, strictly decreasing. -/
theorem updatePatternTable_wrap_counterexample :
    countT (triples [0, 0, 0]) (0, 0) 0 = 1 ∧
    tblCount exWrapState.patternTable (0, 0) 0 = 4294967295 ∧
    tblCount (exWrapState.updatePatternTable [0, 0, 0]).patternTable
      (0, 0) 0 = 0 ∧
    ¬ tblCount (exWrapState.updatePatternTable [0, 0, 0]).patternTable
        (0, 0) 0
      = tblCount exWrapState.patternTable (0, 0) 0 + 1 := by
  refine ⟨by decide, by decide, by decide, by decide⟩

/-- C5 amended: updatePatternTable is the identity on fewer than 3 deltas;
otherwise, for every key and next-delta, the stored count becomes the old
count plus the number of matching consecutive input triples reduced
modulo 2 ^ 32 (the wrapping arithmetic of the uint32_t counters: each
triple increments its count by one modulo 2 ^ 32, so a count at
2 ^ 32 - 1 wraps to 0 rather than never decreasing), the stored running
total likewise with the number of triples carrying the key, and every key
carried by no triple is left untouched (no entry is evicted). -/
theorem updatePatternTable_spec (st : GHBHistory) (chron : List Int)
    (k : Int × Int) (d : Int) :
    (chron.length < 3 → st.updatePatternTable chron = st) ∧
    tblCount (st.updatePatternTable chron).patternTable k d
      = (if countT (triples chron) k d = 0 then tblCount st.patternTable k d
         else (tblCount st.patternTable k d + countT (triples chron) k d)
           % 2 ^ 32) ∧
    tblTotal (st.updatePatternTable chron).patternTable k
      = (if countK (triples chron) k = 0 then tblTotal st.patternTable k
         else (tblTotal st.patternTable k + countK (triples chron) k)
           % 2 ^ 32) ∧
    (countK (triples chron) k = 0 →
      (st.updatePatternTable chron).patternTable k = st.patternTable k) := by
  by_cases h3 : chron.length < 3
  · rw [triples_nil chron h3]
    simp [GHBHistory.updatePatternTable, h3, countT, countK]
  · simp only [GHBHistory.updatePatternTable, if_neg h3]
    exact ⟨fun hc => absurd hc h3, foldl_bump_count _ _ _ _,
      foldl_bump_total _ _ _, fun h => foldl_bump_frame _ _ _ h⟩

theorem updatePatternTable_spec_witness :
    tblCount ((mkGHBHistory 2 4 1 true 64 50).updatePatternTable
      [1, 2, 3]).patternTable (1, 2) 3 = 1 := by
  have h := (updatePatternTable_spec (mkGHBHistory 2 4 1 true 64 50)
    [1, 2, 3] (1, 2) 3).2.1
  rw [h]
  decide

/-! ### Claim C7: address generation stays on the page of the block address -/

theorem genLoop_eq (pageBytes blockAddr : Nat) (l : List Int) : ∀ next : Nat,
    genLoop pageBytes blockAddr next l
      = ((specCandidates next (l.filter (fun d => d != 0))).filter
          (fun a => samePage pageBytes blockAddr a)).map (fun a => (a, 0)) := by
  induction l with
  | nil => intro next; simp [genLoop, specCandidates]
  | cons d rest ih =>
    intro next
    by_cases h0 : d = 0
    · simp only [genLoop, if_pos h0, List.filter_cons, h0]
      simpa using ih next
    · have hd : (d != 0) = true := by simpa using h0
      cases hsp : samePage pageBytes blockAddr (addDelta next d) with
      | true =>
        simp [genLoop, h0, hd, hsp, specCandidates, List.filter_cons,
          ih (addDelta next d)]
      | false =>
        simp [genLoop, h0, hd, hsp, specCandidates, List.filter_cons,
          ih (addDelta next d)]

/-- C7: the candidate-generation loop of calculatePrefetch produces exactly
the cumulative addresses obtained by adding each non-zero predicted delta
in order to the block address, keeps only the candidates on the page of
the block address, and emits each kept candidate with priority 0 (the
minimum priority of the issue queue); consequently every emitted address
is on the same page as the triggering block address. -/
theorem calculatePrefetch_spec (pageBytes blockAddr : Nat)
    (predicted : List Int) :
    calculatePrefetchAddrs pageBytes blockAddr predicted
      = ((specCandidates blockAddr (predicted.filter (fun d => d != 0))).filter
          (fun a => samePage pageBytes blockAddr a)).map (fun a => (a, 0)) ∧
    ∀ x ∈ calculatePrefetchAddrs pageBytes blockAddr predicted,
      samePage pageBytes blockAddr x.1 = true ∧ x.2 = 0 := by
  refine ⟨genLoop_eq pageBytes blockAddr predicted blockAddr, ?_⟩
  intro x hx
  rw [calculatePrefetchAddrs, genLoop_eq pageBytes blockAddr predicted blockAddr] at hx
  obtain ⟨a, ha, rfl⟩ := List.mem_map.mp hx
  obtain ⟨-, hp⟩ := List.mem_filter.mp ha
  exact ⟨hp, rfl⟩

theorem calculatePrefetch_spec_witness :
    (8256, 0) ∈ calculatePrefetchAddrs 4096 8192 [64, 0, 64, 5000] ∧
    samePage 4096 8192 8256 = true ∧ (0 : Nat) = 0 :=
  ⟨by decide,
   (calculatePrefetch_spec 4096 8192 [64, 0, 64, 5000]).2 (8256, 0) (by decide)⟩

/-! ### Claim C1: the pattern builder walks the correlation chain -/

theorem walk_eq_specChainWalk (st : GHBHistory) (key : CorrelationKey)
    (maxLength : Nat) :
    ∀ fuel cur collected, maxLength - collected = fuel →
      st.walk key cur fuel = specChainWalk st key maxLength cur collected := by
  intro fuel
  induction fuel with
  | zero =>
    intro cur collected h
    rw [specChainWalk]
    rw [if_pos (by omega : maxLength ≤ collected)]
    rfl
  | succ f ih =>
    intro cur collected h
    rw [specChainWalk]
    rw [if_neg (by omega : ¬ maxLength ≤ collected)]
    show st.walk key cur (f + 1) = _
    simp only [GHBHistory.walk]
    cases hprev : ((st.entryAt cur).link key).prev with
    | none => rfl
    | some p =>
      simp only []
      by_cases hseq : (st.entryAt p).seq ≠ ((st.entryAt cur).link key).prevSeq
      · rw [if_pos hseq, if_pos hseq]
      · rw [if_neg hseq, if_neg hseq]
        rw [ih p (collected + 1) (by omega)]

/-- C1: for every in-range slot index and key kind, buildPattern returns
exactly the delta list described by the spec chain walk (most recent
first, each step appending the signed difference between the entry address
and the predecessor address, stopping on a missing predecessor, a stale
link, or patternLength collected deltas), and it reports failure exactly
when that list is empty. -/
theorem buildPattern_spec (st : GHBHistory) (index : Int)
    (key : CorrelationKey) (h0 : 0 ≤ index)
    (h1 : index < (st.history.length : Int)) :
    st.buildPattern index key
      = (specChainWalk st key st.patternLength index.toNat 0,
         !(specChainWalk st key st.patternLength index.toNat 0).isEmpty) ∧
    ((st.buildPattern index key).2 = false ↔
      (st.buildPattern index key).1 = []) := by
  have hcond : ¬ (index < 0 ∨ (st.history.length : Int) ≤ index) := by omega
  have hb : st.buildPattern index key
      = (specChainWalk st key st.patternLength index.toNat 0,
         !(specChainWalk st key st.patternLength index.toNat 0).isEmpty) := by
    unfold GHBHistory.buildPattern
    rw [if_neg hcond]
    rw [walk_eq_specChainWalk st key st.patternLength st.patternLength
      index.toNat 0 (by omega)]
  refine ⟨hb, ?_⟩
  rw [hb]
  cases hs : specChainWalk st key st.patternLength index.toNat 0 with
  | nil => simp
  | cons a l => simp

/-- Example predictor used by concrete witnesses: the configuration of the
unit tests (capacity 16, pattern length 4, degree 2, PC correlation on,
64-byte pages, confidence 50). -/
def exBase : GHBHistory := mkGHBHistory 16 4 2 true 64 50

/-- Example predictor after the three sequential-stride insertions of the
unit tests (addresses 0, 64, 128 sharing PC 256). -/
def exPC3 : GHBHistory :=
  (((exBase.insert ⟨0, some 256⟩).2.insert ⟨64, some 256⟩).2.insert
    ⟨128, some 256⟩).2

theorem buildPattern_spec_witness :
    (0 : Int) ≤ 2 ∧ (2 : Int) < (exPC3.history.length : Int) ∧
    (exPC3.buildPattern 2 .PC
      = (specChainWalk exPC3 .PC exPC3.patternLength (Int.toNat 2) 0,
         !(specChainWalk exPC3 .PC exPC3.patternLength (Int.toNat 2) 0).isEmpty) ∧
     ((exPC3.buildPattern 2 .PC).2 = false ↔
       (exPC3.buildPattern 2 .PC).1 = [])) :=
  ⟨by decide, by decide, buildPattern_spec exPC3 2 .PC (by decide) (by decide)⟩

/-! ### Frame lemmas for the mutation stages -/

theorem setLink_addr (e : GHBEntry) (key : CorrelationKey) (l : LinkInfo) :
    (e.setLink key l).addr = e.addr := by
  cases key <;> rfl

theorem setLink_seq (e : GHBEntry) (key : CorrelationKey) (l : LinkInfo) :
    (e.setLink key l).seq = e.seq := by
  cases key <;> rfl

theorem setLink_link_same (e : GHBEntry) (key : CorrelationKey) (l : LinkInfo) :
    (e.setLink key l).link key = l := by
  cases key <;> rfl

theorem setLink_link_other (e : GHBEntry) (key k2 : CorrelationKey)
    (l : LinkInfo) (h : k2 ≠ key) : (e.setLink key l).link k2 = e.link k2 := by
  cases key <;> cases k2 <;> first | rfl | exact absurd rfl h

theorem setLinkAt_length (st : GHBHistory) (slot : Nat) (key : CorrelationKey)
    (l : LinkInfo) : (st.setLinkAt slot key l).history.length = st.history.length := by
  simp [GHBHistory.setLinkAt]

theorem setLinkAt_entryAt_same (st : GHBHistory) (slot : Nat)
    (key : CorrelationKey) (l : LinkInfo) (h : slot < st.history.length) :
    (st.setLinkAt slot key l).entryAt slot = (st.entryAt slot).setLink key l := by
  simp only [GHBHistory.setLinkAt, GHBHistory.entryAt]
  exact getD_set_self st.history slot _ h

theorem setLinkAt_entryAt_other (st : GHBHistory) (slot : Nat)
    (key : CorrelationKey) (l : LinkInfo) (i : Nat) (h : i ≠ slot) :
    (st.setLinkAt slot key l).entryAt i = st.entryAt i := by
  simp only [GHBHistory.setLinkAt, GHBHistory.entryAt]
  exact getD_set_ne st.history slot i _ h

theorem writeEntry_length (st : GHBHistory) (slot addr : Nat) :
    (st.writeEntry slot addr).history.length = st.history.length := by
  simp [GHBHistory.writeEntry]

theorem writeEntry_entryAt_same (st : GHBHistory) (slot addr : Nat)
    (h : slot < st.history.length) :
    (st.writeEntry slot addr).entryAt slot
      = { st.entryAt slot with addr := addr, seq := st.sequenceCounter } := by
  simp only [GHBHistory.writeEntry, GHBHistory.entryAt]
  exact getD_set_self st.history slot _ h

theorem writeEntry_entryAt_other (st : GHBHistory) (slot addr : Nat) (i : Nat)
    (h : i ≠ slot) : (st.writeEntry slot addr).entryAt i = st.entryAt i := by
  simp only [GHBHistory.writeEntry, GHBHistory.entryAt]
  exact getD_set_ne st.history slot i _ h

theorem assignCorrelation_index (st : GHBHistory) (slot : Nat)
    (key : CorrelationKey) (value : Nat) :
    (st.assignCorrelation slot key value).index
      = updIdx st.index key value (some slot) := rfl

theorem assignCorrelation_length (st : GHBHistory) (slot : Nat)
    (key : CorrelationKey) (value : Nat) :
    (st.assignCorrelation slot key value).history.length
      = st.history.length := by
  simp [GHBHistory.assignCorrelation, GHBHistory.setLinkAt]

theorem assignCorrelation_entryAt_other (st : GHBHistory) (slot : Nat)
    (key : CorrelationKey) (value : Nat) (i : Nat) (h : i ≠ slot) :
    (st.assignCorrelation slot key value).entryAt i = st.entryAt i :=
  setLinkAt_entryAt_other st slot key _ i h

theorem assignCorrelation_entryAt_same (st : GHBHistory) (slot : Nat)
    (key : CorrelationKey) (value : Nat) (h : slot < st.history.length) :
    (st.assignCorrelation slot key value).entryAt slot
      = (st.entryAt slot).setLink key
          { prev := st.index key value
            prevSeq := match st.index key value with
              | some p => (st.entryAt p).seq
              | none => 0
            keyValue := value
            keyValid := true } :=
  setLinkAt_entryAt_same st slot key _ h

theorem removeOne_head (st : GHBHistory) (slot : Nat) (key : CorrelationKey) :
    (st.removeOne slot key).head = st.head := by
  by_cases hv : ((st.entryAt slot).link key).keyValid = true
  · simp [GHBHistory.removeOne, hv, GHBHistory.setLinkAt]
  · simp [GHBHistory.removeOne, hv]

theorem removeOne_filled (st : GHBHistory) (slot : Nat) (key : CorrelationKey) :
    (st.removeOne slot key).filled = st.filled := by
  by_cases hv : ((st.entryAt slot).link key).keyValid = true
  · simp [GHBHistory.removeOne, hv, GHBHistory.setLinkAt]
  · simp [GHBHistory.removeOne, hv]

theorem removeOne_seqCounter (st : GHBHistory) (slot : Nat)
    (key : CorrelationKey) :
    (st.removeOne slot key).sequenceCounter = st.sequenceCounter := by
  by_cases hv : ((st.entryAt slot).link key).keyValid = true
  · simp [GHBHistory.removeOne, hv, GHBHistory.setLinkAt]
  · simp [GHBHistory.removeOne, hv]

theorem removeOne_patternTable (st : GHBHistory) (slot : Nat)
    (key : CorrelationKey) :
    (st.removeOne slot key).patternTable = st.patternTable := by
  by_cases hv : ((st.entryAt slot).link key).keyValid = true
  · simp [GHBHistory.removeOne, hv, GHBHistory.setLinkAt]
  · simp [GHBHistory.removeOne, hv]

theorem removeOne_historySize (st : GHBHistory) (slot : Nat)
    (key : CorrelationKey) :
    (st.removeOne slot key).historySize = st.historySize := by
  by_cases hv : ((st.entryAt slot).link key).keyValid = true
  · simp [GHBHistory.removeOne, hv, GHBHistory.setLinkAt]
  · simp [GHBHistory.removeOne, hv]

theorem removeOne_length (st : GHBHistory) (slot : Nat) (key : CorrelationKey) :
    (st.removeOne slot key).history.length = st.history.length := by
  by_cases hv : ((st.entryAt slot).link key).keyValid = true
  · simp [GHBHistory.removeOne, hv, GHBHistory.setLinkAt]
  · simp [GHBHistory.removeOne, hv]

theorem removeOne_index_sub (st : GHBHistory) (slot : Nat)
    (key : CorrelationKey) (k2 : CorrelationKey) (v s : Nat)
    (h : (st.removeOne slot key).index k2 v = some s) :
    st.index k2 v = some s := by
  by_cases hv : ((st.entryAt slot).link key).keyValid = true
  · simp only [GHBHistory.removeOne, hv, if_pos] at h
    by_cases hc : k2 = key ∧ v = ((st.entryAt slot).link key).keyValue ∧
        st.index key ((st.entryAt slot).link key).keyValue = some slot
    · rw [if_pos hc] at h
      exact absurd h (by simp)
    · rwa [if_neg hc] at h
  · simpa [GHBHistory.removeOne, hv] using h

theorem removeOne_index_other (st : GHBHistory) (slot : Nat)
    (key k2 : CorrelationKey) (v : Nat) (h : k2 ≠ key) :
    (st.removeOne slot key).index k2 v = st.index k2 v := by
  by_cases hv : ((st.entryAt slot).link key).keyValid = true
  · simp only [GHBHistory.removeOne, hv, if_pos]
    rw [if_neg (fun hc => h hc.1)]
  · simp [GHBHistory.removeOne, hv]

theorem removeOne_entryAt_other (st : GHBHistory) (slot : Nat)
    (key : CorrelationKey) (i : Nat) (h : i ≠ slot) :
    (st.removeOne slot key).entryAt i = st.entryAt i := by
  by_cases hv : ((st.entryAt slot).link key).keyValid = true
  · show (st.removeOne slot key).history.getD i default = _
    simp only [GHBHistory.removeOne, hv, if_pos]
    exact setLinkAt_entryAt_other st slot key _ i h
  · simp [GHBHistory.removeOne, hv]

theorem removeOne_entryAt_addr (st : GHBHistory) (slot : Nat)
    (key : CorrelationKey) (i : Nat) (hs : slot < st.history.length) :
    ((st.removeOne slot key).entryAt i).addr = (st.entryAt i).addr := by
  by_cases hi : i = slot
  · subst hi
    by_cases hv : ((st.entryAt i).link key).keyValid = true
    · show ((st.removeOne i key).history.getD i default).addr = _
      simp only [GHBHistory.removeOne, hv, if_pos]
      have := setLinkAt_entryAt_same st i key
        { (st.entryAt i).link key with keyValid := false } hs
      show ((st.setLinkAt i key _).entryAt i).addr = _
      rw [this, setLink_addr]
    · simp [GHBHistory.removeOne, hv]
  · rw [removeOne_entryAt_other st slot key i hi]

theorem removeOne_entryAt_seq (st : GHBHistory) (slot : Nat)
    (key : CorrelationKey) (i : Nat) (hs : slot < st.history.length) :
    ((st.removeOne slot key).entryAt i).seq = (st.entryAt i).seq := by
  by_cases hi : i = slot
  · subst hi
    by_cases hv : ((st.entryAt i).link key).keyValid = true
    · show ((st.removeOne i key).history.getD i default).seq = _
      simp only [GHBHistory.removeOne, hv, if_pos]
      have := setLinkAt_entryAt_same st i key
        { (st.entryAt i).link key with keyValid := false } hs
      show ((st.setLinkAt i key _).entryAt i).seq = _
      rw [this, setLink_seq]
    · simp [GHBHistory.removeOne, hv]
  · rw [removeOne_entryAt_other st slot key i hi]

theorem removeOne_link_other (st : GHBHistory) (slot : Nat)
    (key k2 : CorrelationKey) (hs : slot < st.history.length) (h : k2 ≠ key) :
    ((st.removeOne slot key).entryAt slot).link k2
      = (st.entryAt slot).link k2 := by
  by_cases hv : ((st.entryAt slot).link key).keyValid = true
  · show (((st.removeOne slot key).history.getD slot default)).link k2 = _
    simp only [GHBHistory.removeOne, hv, if_pos]
    have := setLinkAt_entryAt_same st slot key
      { (st.entryAt slot).link key with keyValid := false } hs
    show (((st.setLinkAt slot key _).entryAt slot)).link k2 = _
    rw [this, setLink_link_other _ _ _ _ h]
  · simp [GHBHistory.removeOne, hv]

theorem removeOne_key_none (st : GHBHistory) (slot : Nat)
    (key : CorrelationKey)
    (hIok : ∀ k v s, st.index k v = some s →
      s < st.history.length ∧ ((st.entryAt s).link k).keyValid = true ∧
      ((st.entryAt s).link k).keyValue = v) :
    ∀ v, (st.removeOne slot key).index key v ≠ some slot := by
  intro v hcon
  by_cases hv : ((st.entryAt slot).link key).keyValid = true
  · simp only [GHBHistory.removeOne, hv, if_pos] at hcon
    split_ifs at hcon with hc
    obtain ⟨-, -, hval⟩ := hIok key v slot hcon
    apply hc
    exact ⟨trivial, hval.symm, by rw [hval]; exact hcon⟩
  · simp only [GHBHistory.removeOne] at hcon
    rw [if_neg hv] at hcon
    obtain ⟨-, hvalid, -⟩ := hIok key v slot hcon
    exact hv hvalid

/-- The correlation-index invariant: every index mapping points to an
in-range slot whose link record for that kind is valid and holds the
mapped key value (no dangling index entry). -/
def IndexOK (st : GHBHistory) : Prop :=
  ∀ k v s, st.index k v = some s →
    s < st.history.length ∧ ((st.entryAt s).link k).keyValid = true ∧
    ((st.entryAt s).link k).keyValue = v

theorem removeOne_index_ok (st : GHBHistory) (slot : Nat)
    (key : CorrelationKey) (hs : slot < st.history.length)
    (hIok : IndexOK st) : IndexOK (st.removeOne slot key) := by
  intro k v s h
  have hsub := removeOne_index_sub st slot key k v s h
  obtain ⟨hlt, hvalid, hval⟩ := hIok k v s hsub
  rw [removeOne_length]
  by_cases hik : s = slot
  · subst hik
    by_cases hkk : k = key
    · subst hkk
      exact absurd h (removeOne_key_none st s k hIok v)
    · rw [removeOne_link_other st s key k hs hkk]
      exact ⟨hlt, hvalid, hval⟩
  · rw [removeOne_entryAt_other st slot key s hik]
    exact ⟨hlt, hvalid, hval⟩

theorem removeIndexMappings_index_ok (st : GHBHistory) (slot : Nat)
    (hs : slot < st.history.length) (hIok : IndexOK st) :
    IndexOK (st.removeIndexMappings slot) := by
  have h1 := removeOne_index_ok st slot .PC hs hIok
  exact removeOne_index_ok _ slot .Page
    (by rw [removeOne_length]; exact hs) h1

theorem removeIndexMappings_no_slot (st : GHBHistory) (slot : Nat)
    (hs : slot < st.history.length) (hIok : IndexOK st) :
    ∀ k v, (st.removeIndexMappings slot).index k v ≠ some slot := by
  intro k v hcon
  have h1 : IndexOK (st.removeOne slot .PC) :=
    removeOne_index_ok st slot .PC hs hIok
  cases k with
  | Page => exact removeOne_key_none _ slot .Page h1 v hcon
  | PC =>
    have hsub := removeOne_index_sub _ slot .Page .PC v slot hcon
    exact removeOne_key_none st slot .PC hIok v hsub

theorem removeIndexMappings_head (st : GHBHistory) (slot : Nat) :
    (st.removeIndexMappings slot).head = st.head := by
  unfold GHBHistory.removeIndexMappings
  rw [removeOne_head, removeOne_head]

theorem removeIndexMappings_filled (st : GHBHistory) (slot : Nat) :
    (st.removeIndexMappings slot).filled = st.filled := by
  unfold GHBHistory.removeIndexMappings
  rw [removeOne_filled, removeOne_filled]

theorem removeIndexMappings_seqCounter (st : GHBHistory) (slot : Nat) :
    (st.removeIndexMappings slot).sequenceCounter = st.sequenceCounter := by
  unfold GHBHistory.removeIndexMappings
  rw [removeOne_seqCounter, removeOne_seqCounter]

theorem removeIndexMappings_patternTable (st : GHBHistory) (slot : Nat) :
    (st.removeIndexMappings slot).patternTable = st.patternTable := by
  unfold GHBHistory.removeIndexMappings
  rw [removeOne_patternTable, removeOne_patternTable]

theorem removeIndexMappings_historySize (st : GHBHistory) (slot : Nat) :
    (st.removeIndexMappings slot).historySize = st.historySize := by
  unfold GHBHistory.removeIndexMappings
  rw [removeOne_historySize, removeOne_historySize]

theorem removeIndexMappings_length (st : GHBHistory) (slot : Nat) :
    (st.removeIndexMappings slot).history.length = st.history.length := by
  unfold GHBHistory.removeIndexMappings
  rw [removeOne_length, removeOne_length]

theorem removeIndexMappings_entryAt_addr (st : GHBHistory) (slot : Nat)
    (i : Nat) (hs : slot < st.history.length) :
    ((st.removeIndexMappings slot).entryAt i).addr = (st.entryAt i).addr := by
  unfold GHBHistory.removeIndexMappings
  rw [removeOne_entryAt_addr _ slot .Page i (by rw [removeOne_length]; exact hs),
    removeOne_entryAt_addr st slot .PC i hs]

theorem removeIndexMappings_entryAt_seq (st : GHBHistory) (slot : Nat)
    (i : Nat) (hs : slot < st.history.length) :
    ((st.removeIndexMappings slot).entryAt i).seq = (st.entryAt i).seq := by
  unfold GHBHistory.removeIndexMappings
  rw [removeOne_entryAt_seq _ slot .Page i (by rw [removeOne_length]; exact hs),
    removeOne_entryAt_seq st slot .PC i hs]

theorem removeIndexMappings_index_sub (st : GHBHistory) (slot : Nat)
    (k : CorrelationKey) (v s : Nat)
    (h : (st.removeIndexMappings slot).index k v = some s) :
    st.index k v = some s :=
  removeOne_index_sub st slot .PC k v s
    (removeOne_index_sub _ slot .Page k v s h)

theorem entry_write_link (e : GHBEntry) (x y : Nat) (k : CorrelationKey) :
    ({ e with addr := x, seq := y } : GHBEntry).link k = e.link k := by
  cases k <;> rfl

theorem getD_replicate (n i : Nat) :
    (List.replicate n (default : GHBEntry)).getD i default = default := by
  induction n generalizing i with
  | zero => simp
  | succ m ih =>
    cases i with
    | zero => simp [List.replicate]
    | succ j => simp only [List.replicate, List.getD_cons_succ]; exact ih j

theorem writeEntry_index (st : GHBHistory) (slot addr : Nat) :
    (st.writeEntry slot addr).index = st.index := rfl

theorem writeEntry_head (st : GHBHistory) (slot addr : Nat) :
    (st.writeEntry slot addr).head = st.head := rfl

theorem writeEntry_filled (st : GHBHistory) (slot addr : Nat) :
    (st.writeEntry slot addr).filled = st.filled := rfl

theorem writeEntry_seqCounter (st : GHBHistory) (slot addr : Nat) :
    (st.writeEntry slot addr).sequenceCounter = st.sequenceCounter + 1 := rfl

theorem writeEntry_patternTable (st : GHBHistory) (slot addr : Nat) :
    (st.writeEntry slot addr).patternTable = st.patternTable := rfl

theorem writeEntry_historySize (st : GHBHistory) (slot addr : Nat) :
    (st.writeEntry slot addr).historySize = st.historySize := rfl

theorem assignCorrelation_head (st : GHBHistory) (slot : Nat)
    (key : CorrelationKey) (value : Nat) :
    (st.assignCorrelation slot key value).head = st.head := rfl

theorem assignCorrelation_filled (st : GHBHistory) (slot : Nat)
    (key : CorrelationKey) (value : Nat) :
    (st.assignCorrelation slot key value).filled = st.filled := rfl

theorem assignCorrelation_seqCounter (st : GHBHistory) (slot : Nat)
    (key : CorrelationKey) (value : Nat) :
    (st.assignCorrelation slot key value).sequenceCounter
      = st.sequenceCounter := rfl

theorem assignCorrelation_patternTable (st : GHBHistory) (slot : Nat)
    (key : CorrelationKey) (value : Nat) :
    (st.assignCorrelation slot key value).patternTable = st.patternTable := rfl

theorem assignCorrelation_historySize (st : GHBHistory) (slot : Nat)
    (key : CorrelationKey) (value : Nat) :
    (st.assignCorrelation slot key value).historySize = st.historySize := rfl

theorem assignCorrelation_pageBytes (st : GHBHistory) (slot : Nat)
    (key : CorrelationKey) (value : Nat) :
    (st.assignCorrelation slot key value).pageBytes = st.pageBytes := rfl

theorem assignCorrelation_entryAt_seq (st : GHBHistory) (slot : Nat)
    (key : CorrelationKey) (value : Nat) (i : Nat)
    (hs : slot < st.history.length) :
    ((st.assignCorrelation slot key value).entryAt i).seq
      = (st.entryAt i).seq := by
  by_cases hi : i = slot
  · subst hi
    rw [assignCorrelation_entryAt_same st i key value hs, setLink_seq]
  · rw [assignCorrelation_entryAt_other st slot key value i hi]

theorem assignCorrelation_entryAt_addr (st : GHBHistory) (slot : Nat)
    (key : CorrelationKey) (value : Nat) (i : Nat)
    (hs : slot < st.history.length) :
    ((st.assignCorrelation slot key value).entryAt i).addr
      = (st.entryAt i).addr := by
  by_cases hi : i = slot
  · subst hi
    rw [assignCorrelation_entryAt_same st i key value hs, setLink_addr]
  · rw [assignCorrelation_entryAt_other st slot key value i hi]

theorem linkStagePC_shape (st : GHBHistory) (slot : Nat) (a : AccessInfo) :
    (∃ pcv, a.pc = some pcv ∧ st.usePC = true ∧
      st.linkStagePC slot a = st.assignCorrelation slot .PC pcv) ∨
    st.linkStagePC slot a = st.setLinkAt slot .PC default := by
  cases hpc : a.pc with
  | none =>
    right
    simp [GHBHistory.linkStagePC, hpc]
  | some pcv =>
    by_cases hu : st.usePC = true
    · left
      exact ⟨pcv, rfl, hu, by simp [GHBHistory.linkStagePC, hpc, hu]⟩
    · right
      simp only [GHBHistory.linkStagePC, hpc]
      rw [if_neg hu]

theorem advanceHead_index (st : GHBHistory) (slot : Nat) :
    (st.advanceHead slot).index = st.index := rfl

theorem advanceHead_history (st : GHBHistory) (slot : Nat) :
    (st.advanceHead slot).history = st.history := rfl

theorem advanceHead_seqCounter (st : GHBHistory) (slot : Nat) :
    (st.advanceHead slot).sequenceCounter = st.sequenceCounter := rfl

theorem advanceHead_patternTable (st : GHBHistory) (slot : Nat) :
    (st.advanceHead slot).patternTable = st.patternTable := rfl

theorem advanceHead_historySize (st : GHBHistory) (slot : Nat) :
    (st.advanceHead slot).historySize = st.historySize := rfl

theorem advanceHead_head (st : GHBHistory) (slot : Nat) :
    (st.advanceHead slot).head = (slot + 1) % st.historySize := rfl

theorem advanceHead_filled (st : GHBHistory) (slot : Nat) :
    (st.advanceHead slot).filled
      = (if (slot + 1) % st.historySize = 0 then true else st.filled) := rfl

theorem setLinkAt_index (st : GHBHistory) (slot : Nat) (key : CorrelationKey)
    (l : LinkInfo) : (st.setLinkAt slot key l).index = st.index := rfl

/-! ### The reachability invariant -/

/-- Well-formedness of the learned pattern table: every stored running
total equals the sum of the stored counts reduced modulo 2 ^ 32, the
congruence the wrapping uint32_t arithmetic maintains (so a non-zero
total still implies a non-empty distribution). -/
def TableWF (st : GHBHistory) : Prop :=
  ∀ k e, st.patternTable k = some e → e.total = countsSum e.counts % 2 ^ 32

/-- The state invariant maintained by every reachable predictor state. -/
structure Inv (st : GHBHistory) : Prop where
  size_pos : 1 ≤ st.historySize
  plen_pos : 1 ≤ st.patternLength
  degree_pos : 1 ≤ st.degree
  page_pos : 1 ≤ st.pageBytes
  conf_le : st.confidenceThreshold ≤ 100
  len_eq : st.history.length = st.historySize
  head_lt : st.head < st.historySize
  seqc_pos : 1 ≤ st.sequenceCounter
  seq_lt : ∀ i, i < st.history.length → (st.entryAt i).seq < st.sequenceCounter
  seq_distinct : ∀ i j, i < st.history.length → j < st.history.length →
    i ≠ j → (st.entryAt i).seq ≠ 0 → (st.entryAt i).seq ≠ (st.entryAt j).seq
  index_ok : IndexOK st
  unfilled_lt : st.filled = false → ∀ k v s, st.index k v = some s → s < st.head
  table_ok : TableWF st

theorem inv_mk (h p d : Nat) (u : Bool) (pb c : Nat) :
    Inv (mkGHBHistory h p d u pb c) := by
  refine ⟨?_, ?_, ?_, ?_, ?_, ?_, ?_, ?_, ?_, ?_, ?_, ?_, ?_⟩
  · simp [mkGHBHistory]
  · simp [mkGHBHistory]
  · simp [mkGHBHistory]
  · simp [mkGHBHistory]
  · simp [mkGHBHistory]
  · simp [mkGHBHistory]
  · simp [mkGHBHistory]
  · simp [mkGHBHistory]
  · intro i hi
    show ((List.replicate (max 1 h) (default : GHBEntry)).getD i default).seq < 1
    rw [getD_replicate]
    exact Nat.lt_succ_self 0
  · intro i j hi hj hij hne
    exfalso
    apply hne
    show ((List.replicate (max 1 h) (default : GHBEntry)).getD i default).seq = 0
    rw [getD_replicate]
    rfl
  · intro k v s hc
    exact absurd hc (by simp [mkGHBHistory, emptyIndex])
  · intro _ k v s hc
    exact absurd hc (by simp [mkGHBHistory, emptyIndex])
  · intro k e hc
    exact absurd hc (by simp [mkGHBHistory, emptyPatternTable])

theorem inv_reset (st : GHBHistory) (hI : Inv st) : Inv st.reset := by
  refine ⟨hI.size_pos, hI.plen_pos, hI.degree_pos, hI.page_pos, hI.conf_le,
    ?_, ?_, ?_, ?_, ?_, ?_, ?_, ?_⟩
  · show (st.history.map (fun _ => (default : GHBEntry))).length = st.historySize
    rw [List.length_map]
    exact hI.len_eq
  · exact hI.size_pos
  · exact le_refl 1
  · intro i hi
    show ((st.history.map (fun _ => (default : GHBEntry))).getD i default).seq < 1
    rw [getD_map_default]
    exact Nat.lt_succ_self 0
  · intro i j hi hj hij hne
    exfalso
    apply hne
    show ((st.history.map (fun _ => (default : GHBEntry))).getD i default).seq = 0
    rw [getD_map_default]
    rfl
  · intro k v s hc
    exact absurd hc (by simp [GHBHistory.reset, emptyIndex])
  · intro _ k v s hc
    exact absurd hc (by simp [GHBHistory.reset, emptyIndex])
  · intro k e hc
    exact absurd hc (by simp [GHBHistory.reset, emptyPatternTable])

theorem updatePatternTable_frame (st : GHBHistory) (chron : List Int) :
    (st.updatePatternTable chron).historySize = st.historySize ∧
    (st.updatePatternTable chron).patternLength = st.patternLength ∧
    (st.updatePatternTable chron).degree = st.degree ∧
    (st.updatePatternTable chron).usePC = st.usePC ∧
    (st.updatePatternTable chron).pageBytes = st.pageBytes ∧
    (st.updatePatternTable chron).confidenceThreshold
      = st.confidenceThreshold ∧
    (st.updatePatternTable chron).history = st.history ∧
    (st.updatePatternTable chron).index = st.index ∧
    (st.updatePatternTable chron).head = st.head ∧
    (st.updatePatternTable chron).filled = st.filled ∧
    (st.updatePatternTable chron).sequenceCounter = st.sequenceCounter := by
  unfold GHBHistory.updatePatternTable
  split <;>
    exact ⟨rfl, rfl, rfl, rfl, rfl, rfl, rfl, rfl, rfl, rfl, rfl⟩

theorem foldl_bump_table_ok (l : List ((Int × Int) × Int))
    (tbl : Int × Int → Option PatternEntry)
    (h : ∀ k e, tbl k = some e → e.total = countsSum e.counts % 2 ^ 32) :
    ∀ k e, l.foldl bumpTable tbl k = some e →
      e.total = countsSum e.counts % 2 ^ 32 := by
  induction l generalizing tbl with
  | nil => exact h
  | cons t rest ih =>
    refine ih (bumpTable tbl t) ?_
    intro k e hk
    by_cases hkt : k = t.1
    · subst hkt
      simp only [bumpTable, if_pos rfl] at hk
      cases he : tbl t.1 with
      | none =>
        rw [he] at hk
        simp only [Option.getD_none] at hk
        cases Option.some.inj hk
        simp [countsSum, bumpCounts]
      | some e0 =>
        rw [he] at hk
        simp only [Option.getD_some] at hk
        cases Option.some.inj hk
        show (e0.total + 1) % 2 ^ 32
          = countsSum (bumpCounts e0.counts t.2) % 2 ^ 32
        rw [countsSum_bumpCounts_mod, h t.1 e0 he, Nat.mod_add_mod]
    · rw [bumpTable_ne tbl t k (fun hc => hkt (Eq.symm hc))] at hk
      exact h k e hk

theorem inv_update (st : GHBHistory) (chron : List Int) (hI : Inv st) :
    Inv (st.updatePatternTable chron) := by
  obtain ⟨h1, h2, h3, h4, h5, h6, h7, h8, h9, h10, h11⟩ :=
    updatePatternTable_frame st chron
  refine ⟨h1 ▸ hI.size_pos, h2 ▸ hI.plen_pos, h3 ▸ hI.degree_pos,
    h5 ▸ hI.page_pos, h6 ▸ hI.conf_le, ?_, ?_, ?_, ?_, ?_, ?_, ?_, ?_⟩
  · rw [h7, h1]
    exact hI.len_eq
  · rw [h9, h1]
    exact hI.head_lt
  · rw [h11]
    exact hI.seqc_pos
  · intro i hi
    rw [h7] at hi
    show ((st.updatePatternTable chron).history.getD i default).seq < _
    rw [h7, h11]
    exact hI.seq_lt i hi
  · intro i j hi hj hij hne
    rw [h7] at hi hj
    show ¬ ((st.updatePatternTable chron).history.getD i default).seq
      = ((st.updatePatternTable chron).history.getD j default).seq
    have hne2 : ((st.updatePatternTable chron).history.getD i default).seq ≠ 0 := hne
    rw [h7] at hne2 ⊢
    exact hI.seq_distinct i j hi hj hij hne2
  · intro k v s hkv
    rw [h8] at hkv
    obtain ⟨ha, hb, hc⟩ := hI.index_ok k v s hkv
    refine ⟨by rw [h7]; exact ha, ?_, ?_⟩
    · show (((st.updatePatternTable chron).history.getD s default).link k).keyValid = true
      rw [h7]
      exact hb
    · show (((st.updatePatternTable chron).history.getD s default).link k).keyValue = v
      rw [h7]
      exact hc
  · intro hf k v s hkv
    rw [h10] at hf
    rw [h8] at hkv
    rw [h9]
    exact hI.unfilled_lt hf k v s hkv
  · intro k e hk
    unfold GHBHistory.updatePatternTable at hk
    split at hk
    · exact hI.table_ok k e hk
    · exact foldl_bump_table_ok _ _ hI.table_ok k e hk

theorem insert_stages_inv (st1 : GHBHistory) (a : AccessInfo)
    (hsz : 1 ≤ st1.historySize)
    (hpl : 1 ≤ st1.patternLength)
    (hdeg : 1 ≤ st1.degree)
    (hpg : 1 ≤ st1.pageBytes)
    (hcf : st1.confidenceThreshold ≤ 100)
    (hlen : st1.history.length = st1.historySize)
    (hhead : st1.head < st1.historySize)
    (hseqc : 1 ≤ st1.sequenceCounter)
    (hseqlt : ∀ i, i < st1.history.length →
      (st1.entryAt i).seq < st1.sequenceCounter)
    (hseqd : ∀ i j, i < st1.history.length → j < st1.history.length →
      i ≠ j → (st1.entryAt i).seq ≠ 0 →
      (st1.entryAt i).seq ≠ (st1.entryAt j).seq)
    (hiok : IndexOK st1)
    (hnos : ∀ k v, st1.index k v ≠ some st1.head)
    (hunf : st1.filled = false → ∀ k v s, st1.index k v = some s → s < st1.head)
    (htb : TableWF st1) :
    Inv ((((st1.writeEntry st1.head a.addr).linkStagePC st1.head
      a).assignCorrelation st1.head CorrelationKey.Page
      (((st1.writeEntry st1.head a.addr).linkStagePC st1.head a).computePage
        a.addr)).advanceHead st1.head) := by
  set slot := st1.head with hslot
  set st2 := st1.writeEntry slot a.addr with hst2def
  set st3 := st2.linkStagePC slot a with hst3def
  set pv := st3.computePage a.addr with hpvdef
  set st4 := st3.assignCorrelation slot CorrelationKey.Page pv with hst4def
  have hslotlt : slot < st1.history.length := by rw [hlen]; exact hhead
  have hlen2 : st2.history.length = st1.history.length :=
    writeEntry_length st1 slot a.addr
  have hslotlt2 : slot < st2.history.length := by rw [hlen2]; exact hslotlt
  have hidx2 : st2.index = st1.index := rfl
  have hsc2 : st2.sequenceCounter = st1.sequenceCounter + 1 := rfl
  have hseq2slot : (st2.entryAt slot).seq = st1.sequenceCounter := by
    rw [hst2def, writeEntry_entryAt_same st1 slot a.addr hslotlt]
  have hseq2other : ∀ i, i ≠ slot →
      (st2.entryAt i).seq = (st1.entryAt i).seq := by
    intro i hi
    rw [hst2def, writeEntry_entryAt_other st1 slot a.addr i hi]
  have hlink2 : ∀ i k, (st2.entryAt i).link k = (st1.entryAt i).link k := by
    intro i k
    by_cases hi : i = slot
    · rw [hi, hst2def, writeEntry_entryAt_same st1 slot a.addr hslotlt,
        entry_write_link]
    · rw [hst2def, writeEntry_entryAt_other st1 slot a.addr i hi]
  have hiok2 : IndexOK st2 := by
    intro k v s h
    rw [hidx2] at h
    obtain ⟨h1, h2, h3⟩ := hiok k v s h
    exact ⟨by rw [hlen2]; exact h1, by rw [hlink2]; exact h2,
      by rw [hlink2]; exact h3⟩
  have hnos2 : ∀ k v, st2.index k v ≠ some slot := by
    intro k v
    rw [hidx2]
    exact hnos k v
  have hP : (st3.historySize = st2.historySize ∧
      st3.patternLength = st2.patternLength ∧
      st3.degree = st2.degree ∧ st3.pageBytes = st2.pageBytes ∧
      st3.confidenceThreshold = st2.confidenceThreshold ∧
      st3.head = st2.head ∧ st3.filled = st2.filled ∧
      st3.sequenceCounter = st2.sequenceCounter ∧
      st3.patternTable = st2.patternTable ∧
      st3.history.length = st2.history.length) ∧
      (∀ i, (st3.entryAt i).seq = (st2.entryAt i).seq) ∧
      IndexOK st3 ∧
      (∀ v, st3.index CorrelationKey.Page v
        = st2.index CorrelationKey.Page v) ∧
      (∀ k v s, st3.index k v = some s →
        st2.index k v = some s ∨ s = slot) := by
    rcases linkStagePC_shape st2 slot a with ⟨pcv, hpc, hu, heq⟩ | heq
    · have hst3 : st3 = st2.assignCorrelation slot CorrelationKey.PC pcv :=
        hst3def.trans heq
      have hidx3 : st3.index
          = updIdx st2.index CorrelationKey.PC pcv (some slot) := by
        rw [hst3]; rfl
      refine ⟨⟨by rw [hst3]; rfl, by rw [hst3]; rfl, by rw [hst3]; rfl,
        by rw [hst3]; rfl, by rw [hst3]; rfl, by rw [hst3]; rfl,
        by rw [hst3]; rfl, by rw [hst3]; rfl, by rw [hst3]; rfl,
        by rw [hst3]; exact assignCorrelation_length st2 slot _ pcv⟩,
        ?_, ?_, ?_, ?_⟩
      · intro i
        rw [hst3]
        exact assignCorrelation_entryAt_seq st2 slot _ pcv i hslotlt2
      · intro k v s h
        rw [hidx3] at h
        unfold updIdx at h
        by_cases hcond : k = CorrelationKey.PC ∧ v = pcv
        · rw [if_pos hcond] at h
          have hseq : s = slot := (Option.some.inj h).symm
          subst hseq
          obtain ⟨hk, hv⟩ := hcond
          subst hk
          refine ⟨by rw [hst3, assignCorrelation_length]; exact hslotlt2,
            ?_, ?_⟩
          · rw [hst3, assignCorrelation_entryAt_same st2 slot CorrelationKey.PC
              pcv hslotlt2, setLink_link_same]
          · rw [hst3, assignCorrelation_entryAt_same st2 slot CorrelationKey.PC
              pcv hslotlt2, setLink_link_same]
            exact hv.symm
        · rw [if_neg hcond] at h
          obtain ⟨h1, h2, h3⟩ := hiok2 k v s h
          by_cases hs : s = slot
          · subst hs
            exact absurd h (hnos2 k v)
          · refine ⟨by rw [hst3, assignCorrelation_length]; exact h1, ?_, ?_⟩
            · rw [hst3,
                assignCorrelation_entryAt_other st2 slot _ pcv s hs]
              exact h2
            · rw [hst3,
                assignCorrelation_entryAt_other st2 slot _ pcv s hs]
              exact h3
      · intro v
        rw [hidx3]
        unfold updIdx
        rw [if_neg (fun hc => CorrelationKey.noConfusion hc.1)]
      · intro k v s h
        rw [hidx3] at h
        unfold updIdx at h
        by_cases hcond : k = CorrelationKey.PC ∧ v = pcv
        · rw [if_pos hcond] at h
          exact Or.inr (Option.some.inj h).symm
        · rw [if_neg hcond] at h
          exact Or.inl h
    · have hst3 : st3 = st2.setLinkAt slot CorrelationKey.PC default :=
        hst3def.trans heq
      have hidx3 : st3.index = st2.index := by rw [hst3]; rfl
      refine ⟨⟨by rw [hst3]; rfl, by rw [hst3]; rfl, by rw [hst3]; rfl,
        by rw [hst3]; rfl, by rw [hst3]; rfl, by rw [hst3]; rfl,
        by rw [hst3]; rfl, by rw [hst3]; rfl, by rw [hst3]; rfl,
        by rw [hst3]; exact setLinkAt_length st2 slot _ default⟩,
        ?_, ?_, ?_, ?_⟩
      · intro i
        by_cases hi : i = slot
        · rw [hi, hst3, setLinkAt_entryAt_same st2 slot _ default hslotlt2,
            setLink_seq]
        · rw [hst3, setLinkAt_entryAt_other st2 slot _ default i hi]
      · intro k v s h
        rw [hidx3] at h
        obtain ⟨h1, h2, h3⟩ := hiok2 k v s h
        by_cases hs : s = slot
        · subst hs
          exact absurd h (hnos2 k v)
        · refine ⟨by rw [hst3, setLinkAt_length]; exact h1, ?_, ?_⟩
          · rw [hst3, setLinkAt_entryAt_other st2 slot _ default s hs]
            exact h2
          · rw [hst3, setLinkAt_entryAt_other st2 slot _ default s hs]
            exact h3
      · intro v
        rw [hidx3]
      · intro k v s h
        rw [hidx3] at h
        exact Or.inl h
  obtain ⟨⟨hsz3, hpl3, hdeg3, hpg3, hcf3, hhd3, hfl3, hsc3, hpt3, hln3⟩,
    hseq3, hiok3, hpage3, hsub3⟩ := hP
  have hslotlt3 : slot < st3.history.length := by rw [hln3]; exact hslotlt2
  have hidx4 : st4.index
      = updIdx st3.index CorrelationKey.Page pv (some slot) := by
    rw [hst4def]; rfl
  have hln4 : st4.history.length = st3.history.length := by
    rw [hst4def]
    exact assignCorrelation_length st3 slot _ pv
  have hseq4 : ∀ i, (st4.entryAt i).seq = (st3.entryAt i).seq := by
    intro i
    rw [hst4def]
    exact assignCorrelation_entryAt_seq st3 slot _ pv i hslotlt3
  have hiok4 : IndexOK st4 := by
    intro k v s h
    rw [hidx4] at h
    unfold updIdx at h
    by_cases hcond : k = CorrelationKey.Page ∧ v = pv
    · rw [if_pos hcond] at h
      have hseq : s = slot := (Option.some.inj h).symm
      subst hseq
      obtain ⟨hk, hv⟩ := hcond
      subst hk
      refine ⟨by rw [hln4]; exact hslotlt3, ?_, ?_⟩
      · rw [hst4def, assignCorrelation_entryAt_same st3 slot CorrelationKey.Page
          pv hslotlt3, setLink_link_same]
      · rw [hst4def, assignCorrelation_entryAt_same st3 slot CorrelationKey.Page
          pv hslotlt3, setLink_link_same]
        exact hv.symm
    · rw [if_neg hcond] at h
      obtain ⟨h1, h2, h3⟩ := hiok3 k v s h
      by_cases hs : s = slot
      · subst hs
        cases k with
        | Page =>
          rw [hpage3 v] at h
          exact absurd h (hnos2 CorrelationKey.Page v)
        | PC =>
          refine ⟨by rw [hln4]; exact h1, ?_, ?_⟩
          · rw [hst4def, assignCorrelation_entryAt_same st3 slot
              CorrelationKey.Page pv hslotlt3,
              setLink_link_other _ _ _ _ (fun hc => CorrelationKey.noConfusion hc)]
            exact h2
          · rw [hst4def, assignCorrelation_entryAt_same st3 slot
              CorrelationKey.Page pv hslotlt3,
              setLink_link_other _ _ _ _ (fun hc => CorrelationKey.noConfusion hc)]
            exact h3
      · refine ⟨by rw [hln4]; exact h1, ?_, ?_⟩
        · rw [hst4def, assignCorrelation_entryAt_other st3 slot _ pv s hs]
          exact h2
        · rw [hst4def, assignCorrelation_entryAt_other st3 slot _ pv s hs]
          exact h3
  have hsub4 : ∀ k v s, st4.index k v = some s →
      st1.index k v = some s ∨ s = slot := by
    intro k v s h
    rw [hidx4] at h
    unfold updIdx at h
    by_cases hcond : k = CorrelationKey.Page ∧ v = pv
    · rw [if_pos hcond] at h
      exact Or.inr (Option.some.inj h).symm
    · rw [if_neg hcond] at h
      rcases hsub3 k v s h with h2 | h2
      · rw [hidx2] at h2
        exact Or.inl h2
      · exact Or.inr h2
  have hSZ : st4.historySize = st1.historySize := by
    have h1 : st4.historySize = st3.historySize := by rw [hst4def]; rfl
    have h2 : st2.historySize = st1.historySize := rfl
    rw [h1, hsz3, h2]
  have hPL : st4.patternLength = st1.patternLength := by
    have h1 : st4.patternLength = st3.patternLength := by rw [hst4def]; rfl
    have h2 : st2.patternLength = st1.patternLength := rfl
    rw [h1, hpl3, h2]
  have hDG : st4.degree = st1.degree := by
    have h1 : st4.degree = st3.degree := by rw [hst4def]; rfl
    have h2 : st2.degree = st1.degree := rfl
    rw [h1, hdeg3, h2]
  have hPG : st4.pageBytes = st1.pageBytes := by
    have h1 : st4.pageBytes = st3.pageBytes := by rw [hst4def]; rfl
    have h2 : st2.pageBytes = st1.pageBytes := rfl
    rw [h1, hpg3, h2]
  have hCF : st4.confidenceThreshold = st1.confidenceThreshold := by
    have h1 : st4.confidenceThreshold = st3.confidenceThreshold := by
      rw [hst4def]; rfl
    have h2 : st2.confidenceThreshold = st1.confidenceThreshold := rfl
    rw [h1, hcf3, h2]
  have hFL : st4.filled = st1.filled := by
    have h1 : st4.filled = st3.filled := by rw [hst4def]; rfl
    have h2 : st2.filled = st1.filled := rfl
    rw [h1, hfl3, h2]
  have hSC : st4.sequenceCounter = st1.sequenceCounter + 1 := by
    have h1 : st4.sequenceCounter = st3.sequenceCounter := by
      rw [hst4def]; rfl
    rw [h1, hsc3, hsc2]
  have hPT : st4.patternTable = st1.patternTable := by
    have h1 : st4.patternTable = st3.patternTable := by rw [hst4def]; rfl
    have h2 : st2.patternTable = st1.patternTable := rfl
    rw [h1, hpt3, h2]
  have hLN : st4.history.length = st1.history.length := by
    rw [hln4, hln3, hlen2]
  have hSEQ : ∀ i, (st4.entryAt i).seq
      = if i = slot then st1.sequenceCounter else (st1.entryAt i).seq := by
    intro i
    rw [hseq4 i, hseq3 i]
    by_cases hi : i = slot
    · rw [if_pos hi, hi, hseq2slot]
    · rw [if_neg hi, hseq2other i hi]
  refine ⟨?_, ?_, ?_, ?_, ?_, ?_, ?_, ?_, ?_, ?_, ?_, ?_, ?_⟩
  · show 1 ≤ st4.historySize
    rw [hSZ]; exact hsz
  · show 1 ≤ st4.patternLength
    rw [hPL]; exact hpl
  · show 1 ≤ st4.degree
    rw [hDG]; exact hdeg
  · show 1 ≤ st4.pageBytes
    rw [hPG]; exact hpg
  · show st4.confidenceThreshold ≤ 100
    rw [hCF]; exact hcf
  · show st4.history.length = st4.historySize
    rw [hLN, hSZ]; exact hlen
  · show (slot + 1) % st4.historySize < st4.historySize
    exact Nat.mod_lt _ (by rw [hSZ]; omega)
  · show 1 ≤ st4.sequenceCounter
    rw [hSC]; omega
  · intro i hi
    show (st4.entryAt i).seq < st4.sequenceCounter
    have hi4 : i < st1.history.length := by rw [← hLN]; exact hi
    rw [hSEQ i, hSC]
    by_cases hic : i = slot
    · rw [if_pos hic]; omega
    · rw [if_neg hic]
      have := hseqlt i hi4
      omega
  · intro i j hi hj hij hne
    show (st4.entryAt i).seq ≠ (st4.entryAt j).seq
    have hi4 : i < st1.history.length := by rw [← hLN]; exact hi
    have hj4 : j < st1.history.length := by rw [← hLN]; exact hj
    rw [hSEQ i, hSEQ j]
    by_cases hic : i = slot
    · rw [if_pos hic, if_neg (by rw [← hic]; exact fun hc => hij hc.symm)]
      have := hseqlt j hj4
      omega
    · rw [if_neg hic]
      by_cases hjc : j = slot
      · rw [if_pos hjc]
        have := hseqlt i hi4
        omega
      · rw [if_neg hjc]
        have hne2 : (st1.entryAt i).seq ≠ 0 := by
          have hne4 : (st4.entryAt i).seq ≠ 0 := hne
          rw [hSEQ i, if_neg hic] at hne4
          exact hne4
        exact hseqd i j hi4 hj4 hij hne2
  · intro k v s h
    exact hiok4 k v s h
  · intro hfF k v s h
    show s < (st4.advanceHead slot).head
    have h4 := hsub4 k v s h
    rw [advanceHead_filled] at hfF
    by_cases hmod : (slot + 1) % st4.historySize = 0
    · rw [if_pos hmod] at hfF
      exact absurd hfF (by simp)
    · rw [if_neg hmod] at hfF
      rw [hFL] at hfF
      have hlt1 : slot + 1 < st1.historySize := by
        rcases Nat.lt_or_ge (slot + 1) st1.historySize with hc | hc
        · exact hc
        · exfalso
          apply hmod
          have : slot + 1 = st1.historySize := by omega
          rw [hSZ, this, Nat.mod_self]
      have hheadF : (st4.advanceHead slot).head = slot + 1 := by
        rw [advanceHead_head, hSZ, Nat.mod_eq_of_lt hlt1]
      rw [hheadF]
      rcases h4 with h4 | h4
      · have := hunf hfF k v s h4
        omega
      · omega
  · intro k e h
    have h1 : (st4.advanceHead slot).patternTable k = some e := h
    rw [advanceHead_patternTable, hPT] at h1
    exact htb k e h1

theorem removeOne_patternLength (st : GHBHistory) (slot : Nat)
    (key : CorrelationKey) :
    (st.removeOne slot key).patternLength = st.patternLength := by
  by_cases hv : ((st.entryAt slot).link key).keyValid = true
  · simp [GHBHistory.removeOne, hv, GHBHistory.setLinkAt]
  · simp [GHBHistory.removeOne, hv]

theorem removeOne_degree (st : GHBHistory) (slot : Nat)
    (key : CorrelationKey) :
    (st.removeOne slot key).degree = st.degree := by
  by_cases hv : ((st.entryAt slot).link key).keyValid = true
  · simp [GHBHistory.removeOne, hv, GHBHistory.setLinkAt]
  · simp [GHBHistory.removeOne, hv]

theorem removeOne_pageBytes (st : GHBHistory) (slot : Nat)
    (key : CorrelationKey) :
    (st.removeOne slot key).pageBytes = st.pageBytes := by
  by_cases hv : ((st.entryAt slot).link key).keyValid = true
  · simp [GHBHistory.removeOne, hv, GHBHistory.setLinkAt]
  · simp [GHBHistory.removeOne, hv]

theorem removeOne_confidence (st : GHBHistory) (slot : Nat)
    (key : CorrelationKey) :
    (st.removeOne slot key).confidenceThreshold = st.confidenceThreshold := by
  by_cases hv : ((st.entryAt slot).link key).keyValid = true
  · simp [GHBHistory.removeOne, hv, GHBHistory.setLinkAt]
  · simp [GHBHistory.removeOne, hv]

theorem removeIndexMappings_patternLength (st : GHBHistory) (slot : Nat) :
    (st.removeIndexMappings slot).patternLength = st.patternLength := by
  unfold GHBHistory.removeIndexMappings
  rw [removeOne_patternLength, removeOne_patternLength]

theorem removeIndexMappings_degree (st : GHBHistory) (slot : Nat) :
    (st.removeIndexMappings slot).degree = st.degree := by
  unfold GHBHistory.removeIndexMappings
  rw [removeOne_degree, removeOne_degree]

theorem removeIndexMappings_pageBytes (st : GHBHistory) (slot : Nat) :
    (st.removeIndexMappings slot).pageBytes = st.pageBytes := by
  unfold GHBHistory.removeIndexMappings
  rw [removeOne_pageBytes, removeOne_pageBytes]

theorem removeIndexMappings_confidence (st : GHBHistory) (slot : Nat) :
    (st.removeIndexMappings slot).confidenceThreshold
      = st.confidenceThreshold := by
  unfold GHBHistory.removeIndexMappings
  rw [removeOne_confidence, removeOne_confidence]

theorem inv_insert (st : GHBHistory) (a : AccessInfo) (hI : Inv st) :
    Inv (st.insert a).2 := by
  have hz : ¬ st.historySize = 0 := by
    have := hI.size_pos
    omega
  have hins : (st.insert a).2
      = ((((if st.filled then st.removeIndexMappings st.head else st).writeEntry
          (if st.filled then st.removeIndexMappings st.head else st).head
          a.addr).linkStagePC
          (if st.filled then st.removeIndexMappings st.head else st).head
          a).assignCorrelation
          (if st.filled then st.removeIndexMappings st.head else st).head
          CorrelationKey.Page
          ((((if st.filled then st.removeIndexMappings st.head
              else st).writeEntry
            (if st.filled then st.removeIndexMappings st.head else st).head
            a.addr).linkStagePC
            (if st.filled then st.removeIndexMappings st.head else st).head
            a).computePage a.addr)).advanceHead
          (if st.filled then st.removeIndexMappings st.head else st).head := by
    unfold GHBHistory.insert
    rw [if_neg hz]
  rw [hins]
  by_cases hf : st.filled = true
  · have hs : st.head < st.history.length := by
      rw [hI.len_eq]
      exact hI.head_lt
    have hcond : (if st.filled then st.removeIndexMappings st.head else st)
        = st.removeIndexMappings st.head := if_pos hf
    rw [hcond]
    refine insert_stages_inv (st.removeIndexMappings st.head) a ?_ ?_ ?_ ?_ ?_
      ?_ ?_ ?_ ?_ ?_ ?_ ?_ ?_ ?_
    · rw [removeIndexMappings_historySize]
      exact hI.size_pos
    · rw [removeIndexMappings_patternLength]
      exact hI.plen_pos
    · rw [removeIndexMappings_degree]
      exact hI.degree_pos
    · rw [removeIndexMappings_pageBytes]
      exact hI.page_pos
    · rw [removeIndexMappings_confidence]
      exact hI.conf_le
    · rw [removeIndexMappings_length, removeIndexMappings_historySize]
      exact hI.len_eq
    · rw [removeIndexMappings_head, removeIndexMappings_historySize]
      exact hI.head_lt
    · rw [removeIndexMappings_seqCounter]
      exact hI.seqc_pos
    · intro i hi
      rw [removeIndexMappings_entryAt_seq st st.head i hs,
        removeIndexMappings_seqCounter]
      apply hI.seq_lt
      rw [removeIndexMappings_length] at hi
      exact hi
    · intro i j hi hj hij hne
      rw [removeIndexMappings_length] at hi hj
      rw [removeIndexMappings_entryAt_seq st st.head i hs] at hne ⊢
      rw [removeIndexMappings_entryAt_seq st st.head j hs]
      exact hI.seq_distinct i j hi hj hij hne
    · exact removeIndexMappings_index_ok st st.head hs hI.index_ok
    · intro k v
      rw [removeIndexMappings_head]
      exact removeIndexMappings_no_slot st st.head hs hI.index_ok k v
    · intro h1f
      rw [removeIndexMappings_filled, hf] at h1f
      exact Bool.noConfusion h1f
    · intro k e hk
      rw [removeIndexMappings_patternTable] at hk
      exact hI.table_ok k e hk
  · have hfeq : st.filled = false := by
      revert hf
      cases st.filled <;> simp
    have hcond : (if st.filled then st.removeIndexMappings st.head else st)
        = st := if_neg (by rw [hfeq]; simp)
    rw [hcond]
    refine insert_stages_inv st a hI.size_pos hI.plen_pos hI.degree_pos
      hI.page_pos hI.conf_le hI.len_eq hI.head_lt hI.seqc_pos hI.seq_lt
      hI.seq_distinct hI.index_ok ?_ hI.unfilled_lt hI.table_ok
    intro k v hc
    have := hI.unfilled_lt hfeq k v st.head hc
    omega

theorem reachable_inv (st : GHBHistory) (h : Reachable st) : Inv st := by
  induction h with
  | init h p d u pb c => exact inv_mk h p d u pb c
  | insertStep st2 a _ ih => exact inv_insert st2 a ih
  | resetStep st2 _ ih => exact inv_reset st2 ih
  | updateStep st2 chron _ ih => exact inv_update st2 chron ih

/-! ### Claim C4: prediction lookup -/

theorem selectMax_cons_none (p : Int × Nat) (rest : List (Int × Nat))
    (hr : selectMax rest = none) : selectMax (p :: rest) = some p := by
  unfold selectMax
  rw [hr]

theorem selectMax_cons_some (p q : Int × Nat) (rest : List (Int × Nat))
    (hr : selectMax rest = some q) :
    selectMax (p :: rest) = if q.2 > p.2 then some q else some p := by
  unfold selectMax
  rw [hr]

theorem selectMax_eq_none (l : List (Int × Nat)) :
    selectMax l = none ↔ l = [] := by
  cases l with
  | nil => simp [selectMax]
  | cons p rest =>
    cases hr : selectMax rest with
    | none => simp [selectMax_cons_none p rest hr]
    | some q =>
      rw [selectMax_cons_some p q rest hr]
      by_cases hcmp : q.2 > p.2
      · simp [hcmp]
      · simp [hcmp]

theorem selectMax_mem (l : List (Int × Nat)) (q : Int × Nat)
    (h : selectMax l = some q) : q ∈ l := by
  induction l generalizing q with
  | nil => exact absurd h (by simp [selectMax])
  | cons p rest ih =>
    cases hr : selectMax rest with
    | none =>
      rw [selectMax_cons_none p rest hr] at h
      rw [← Option.some.inj h]
      exact List.mem_cons_self p rest
    | some q2 =>
      rw [selectMax_cons_some p q2 rest hr] at h
      by_cases hcmp : q2.2 > p.2
      · rw [if_pos hcmp] at h
        rw [← Option.some.inj h]
        exact List.mem_cons_of_mem p (ih q2 hr)
      · rw [if_neg hcmp] at h
        rw [← Option.some.inj h]
        exact List.mem_cons_self p rest

theorem selectMax_max (l : List (Int × Nat)) (q : Int × Nat)
    (h : selectMax l = some q) : ∀ p ∈ l, p.2 ≤ q.2 := by
  induction l generalizing q with
  | nil =>
    intro p hp
    exact absurd hp (by simp)
  | cons p0 rest ih =>
    intro p hp
    cases hr : selectMax rest with
    | none =>
      rw [selectMax_cons_none p0 rest hr] at h
      have hrest : rest = [] := (selectMax_eq_none rest).mp hr
      subst hrest
      rcases List.mem_cons.mp hp with hp2 | hp2
      · rw [hp2, ← Option.some.inj h]
      · exact absurd hp2 (by simp)
    | some q2 =>
      rw [selectMax_cons_some p0 q2 rest hr] at h
      rcases List.mem_cons.mp hp with hp2 | hp2
      · subst hp2
        by_cases hcmp : q2.2 > p.2
        · rw [if_pos hcmp] at h
          rw [← Option.some.inj h]
          omega
        · rw [if_neg hcmp] at h
          rw [← Option.some.inj h]
      · have hle := ih q2 hr p hp2
        by_cases hcmp : q2.2 > p0.2
        · rw [if_pos hcmp] at h
          rw [← Option.some.inj h]
          exact hle
        · rw [if_neg hcmp] at h
          rw [← Option.some.inj h]
          omega

/-- C4: over any predictor state with a well-formed pattern table (which
every reachable state has, first conjunct), findPatternMatch fails exactly
when the chronological list has fewer than 2 deltas, the key (second to
last delta, last delta) is absent, or the stored running total of that key
is zero; otherwise it returns exactly one predicted delta, and that delta
carries the maximum observed count of the distribution of the key (which
of the tied maxima is returned is unspecified in the C++, which sorts an
unordered container). -/
theorem findPatternMatch_spec :
    (∀ st, Reachable st → TableWF st) ∧
    (∀ st : GHBHistory, ∀ chron : List Int, TableWF st →
      ((chron.length < 2 → st.findPatternMatch chron = ([], false)) ∧
       (st.patternTable (patternKey chron) = none →
         st.findPatternMatch chron = ([], false)) ∧
       (∀ e, st.patternTable (patternKey chron) = some e → e.total = 0 →
         st.findPatternMatch chron = ([], false)) ∧
       (∀ e, 2 ≤ chron.length → st.patternTable (patternKey chron) = some e →
         e.total ≠ 0 →
         ∃ d c, st.findPatternMatch chron = ([d], true) ∧ (d, c) ∈ e.counts ∧
           ∀ p ∈ e.counts, p.2 ≤ c))) := by
  constructor
  · intro st h
    exact (reachable_inv st h).table_ok
  · intro st chron hwf
    refine ⟨?_, ?_, ?_, ?_⟩
    · intro hlt
      unfold GHBHistory.findPatternMatch
      rw [if_pos hlt]
    · intro hnone
      unfold GHBHistory.findPatternMatch
      by_cases hlt : chron.length < 2
      · rw [if_pos hlt]
      · rw [if_neg hlt, hnone]
    · intro e hsome htot
      unfold GHBHistory.findPatternMatch
      by_cases hlt : chron.length < 2
      · rw [if_pos hlt]
      · rw [if_neg hlt, hsome]
        simp only [if_pos htot]
    · intro e h2 hsome htot
      have hne : e.counts ≠ [] := by
        intro hc
        apply htot
        rw [hwf (patternKey chron) e hsome, hc]
        rfl
      have hsel : ∃ q, selectMax e.counts = some q := by
        cases hq : selectMax e.counts with
        | none => exact absurd ((selectMax_eq_none e.counts).mp hq) hne
        | some q => exact ⟨q, rfl⟩
      obtain ⟨q, hq⟩ := hsel
      refine ⟨q.1, q.2, ?_, ?_, selectMax_max e.counts q hq⟩
      · unfold GHBHistory.findPatternMatch
        rw [if_neg (by omega), hsome]
        simp only [if_neg htot]
        rw [hq]
      · have := selectMax_mem e.counts q hq
        simpa using this

/-- Predictor trained on the chronological deltas 64, 64, 64 of the unit
tests, used by the concrete C4 witness. -/
def exTable : GHBHistory :=
  (mkGHBHistory 2 4 1 true 64 50).updatePatternTable [64, 64, 64]

theorem findPatternMatch_spec_witness :
    ∃ d c, exTable.findPatternMatch [64, 64] = ([d], true) ∧
      (d, c) ∈ ([(64, 1)] : List (Int × Nat)) ∧
      ∀ p ∈ ([(64, 1)] : List (Int × Nat)), p.2 ≤ c :=
  (findPatternMatch_spec.2 exTable [64, 64]
    (findPatternMatch_spec.1 exTable
      (Reachable.updateStep (mkGHBHistory 2 4 1 true 64 50) [64, 64, 64]
        (Reachable.init 2 4 1 true 64 50)))).2.2.2
    ⟨[(64, 1)], 1⟩ (by decide) (by decide) (by decide)

/-! ### Claims C2 and C6: index and sequence facts about insert -/

theorem removeOne_usePC (st : GHBHistory) (slot : Nat)
    (key : CorrelationKey) : (st.removeOne slot key).usePC = st.usePC := by
  by_cases hv : ((st.entryAt slot).link key).keyValid = true
  · simp [GHBHistory.removeOne, hv, GHBHistory.setLinkAt]
  · simp [GHBHistory.removeOne, hv]

theorem removeIndexMappings_usePC (st : GHBHistory) (slot : Nat) :
    (st.removeIndexMappings slot).usePC = st.usePC := by
  unfold GHBHistory.removeIndexMappings
  rw [removeOne_usePC, removeOne_usePC]

theorem linkStagePC_pageBytes (st : GHBHistory) (slot : Nat)
    (a : AccessInfo) : (st.linkStagePC slot a).pageBytes = st.pageBytes := by
  rcases linkStagePC_shape st slot a with ⟨pcv, -, -, heq⟩ | heq <;>
    rw [heq] <;> rfl

theorem linkStagePC_seqCounter (st : GHBHistory) (slot : Nat)
    (a : AccessInfo) :
    (st.linkStagePC slot a).sequenceCounter = st.sequenceCounter := by
  rcases linkStagePC_shape st slot a with ⟨pcv, -, -, heq⟩ | heq <;>
    rw [heq] <;> rfl

theorem linkStagePC_length (st : GHBHistory) (slot : Nat) (a : AccessInfo) :
    (st.linkStagePC slot a).history.length = st.history.length := by
  rcases linkStagePC_shape st slot a with ⟨pcv, -, -, heq⟩ | heq
  · rw [heq]
    exact assignCorrelation_length st slot _ pcv
  · rw [heq]
    exact setLinkAt_length st slot _ default

theorem linkStagePC_entryAt_seq (st : GHBHistory) (slot : Nat)
    (a : AccessInfo) (i : Nat) (hs : slot < st.history.length) :
    ((st.linkStagePC slot a).entryAt i).seq = (st.entryAt i).seq := by
  rcases linkStagePC_shape st slot a with ⟨pcv, -, -, heq⟩ | heq
  · rw [heq]
    exact assignCorrelation_entryAt_seq st slot _ pcv i hs
  · rw [heq]
    by_cases hi : i = slot
    · rw [hi, setLinkAt_entryAt_same st slot _ default hs, setLink_seq]
    · rw [setLinkAt_entryAt_other st slot _ default i hi]

theorem insert_unfold (st : GHBHistory) (a : AccessInfo)
    (hz : ¬ st.historySize = 0) :
    st.insert a
      = ((((if st.filled then st.removeIndexMappings st.head
            else st).head : Nat) : Int),
         ((((if st.filled then st.removeIndexMappings st.head
             else st).writeEntry
            (if st.filled then st.removeIndexMappings st.head else st).head
            a.addr).linkStagePC
            (if st.filled then st.removeIndexMappings st.head else st).head
            a).assignCorrelation
            (if st.filled then st.removeIndexMappings st.head else st).head
            CorrelationKey.Page
            ((((if st.filled then st.removeIndexMappings st.head
                else st).writeEntry
              (if st.filled then st.removeIndexMappings st.head else st).head
              a.addr).linkStagePC
              (if st.filled then st.removeIndexMappings st.head else st).head
              a).computePage a.addr)).advanceHead
            (if st.filled then st.removeIndexMappings st.head else st).head) := by
  unfold GHBHistory.insert
  rw [if_neg hz]

theorem insert_redirect (st : GHBHistory) (a : AccessInfo)
    (hz : ¬ st.historySize = 0) :
    (st.insert a).1 = (st.head : Int) ∧
    (st.insert a).2.index CorrelationKey.Page (a.addr / st.pageBytes)
      = some st.head ∧
    (∀ pcv, st.usePC = true → a.pc = some pcv →
      (st.insert a).2.index CorrelationKey.PC pcv = some st.head) := by
  have hpair := insert_unfold st a hz
  have hhead1 : (if st.filled then st.removeIndexMappings st.head
      else st).head = st.head := by
    split
    · exact removeIndexMappings_head st st.head
    · rfl
  have hpb1 : (if st.filled then st.removeIndexMappings st.head
      else st).pageBytes = st.pageBytes := by
    split
    · exact removeIndexMappings_pageBytes st st.head
    · rfl
  have husep1 : (if st.filled then st.removeIndexMappings st.head
      else st).usePC = st.usePC := by
    split
    · exact removeIndexMappings_usePC st st.head
    · rfl
  set st1 := if st.filled then st.removeIndexMappings st.head else st
    with hst1
  set st2 := st1.writeEntry st1.head a.addr with hst2
  set st3 := st2.linkStagePC st1.head a with hst3
  refine ⟨?_, ?_, ?_⟩
  · rw [hpair]
    show ((st1.head : Nat) : Int) = (st.head : Int)
    rw [hhead1]
  · rw [hpair]
    show ((st3.assignCorrelation st1.head CorrelationKey.Page
        (st3.computePage a.addr)).advanceHead st1.head).index
        CorrelationKey.Page (a.addr / st.pageBytes) = some st.head
    rw [advanceHead_index, assignCorrelation_index]
    unfold updIdx
    have hpv : st3.computePage a.addr = a.addr / st.pageBytes := by
      show a.addr / st3.pageBytes = a.addr / st.pageBytes
      have h3 : st3.pageBytes = st2.pageBytes :=
        linkStagePC_pageBytes st2 st1.head a
      have h2 : st2.pageBytes = st1.pageBytes := rfl
      rw [h3, h2, hpb1]
    rw [if_pos ⟨rfl, hpv.symm⟩, hhead1]
  · intro pcv hu hpc
    rw [hpair]
    show ((st3.assignCorrelation st1.head CorrelationKey.Page
        (st3.computePage a.addr)).advanceHead st1.head).index
        CorrelationKey.PC pcv = some st.head
    rw [advanceHead_index, assignCorrelation_index]
    unfold updIdx
    rw [if_neg (fun hc => CorrelationKey.noConfusion hc.1)]
    have hu2 : st2.usePC = true := by
      have h2 : st2.usePC = st1.usePC := rfl
      rw [h2, husep1]
      exact hu
    have hst3eq : st3 = st2.assignCorrelation st1.head CorrelationKey.PC pcv := by
      rw [hst3]
      simp [GHBHistory.linkStagePC, hpc, hu2]
    rw [hst3eq, assignCorrelation_index]
    unfold updIdx
    rw [if_pos ⟨rfl, rfl⟩, hhead1]

theorem insert_seq (st : GHBHistory) (a : AccessInfo) (hI : Inv st) :
    (st.insert a).2.sequenceCounter = st.sequenceCounter + 1 ∧
    ((st.insert a).2.entryAt st.head).seq = st.sequenceCounter := by
  have hz : ¬ st.historySize = 0 := by
    have := hI.size_pos
    omega
  have hpair := insert_unfold st a hz
  have hhead1 : (if st.filled then st.removeIndexMappings st.head
      else st).head = st.head := by
    split
    · exact removeIndexMappings_head st st.head
    · rfl
  have hsc1 : (if st.filled then st.removeIndexMappings st.head
      else st).sequenceCounter = st.sequenceCounter := by
    split
    · exact removeIndexMappings_seqCounter st st.head
    · rfl
  have hlen1 : (if st.filled then st.removeIndexMappings st.head
      else st).history.length = st.history.length := by
    split
    · exact removeIndexMappings_length st st.head
    · rfl
  set st1 := if st.filled then st.removeIndexMappings st.head else st
    with hst1
  set st2 := st1.writeEntry st1.head a.addr with hst2
  set st3 := st2.linkStagePC st1.head a with hst3
  have hslotlt1 : st1.head < st1.history.length := by
    rw [hhead1, hlen1, hI.len_eq]
    exact hI.head_lt
  have hslotlt2 : st1.head < st2.history.length := by
    rw [hst2, writeEntry_length]
    exact hslotlt1
  have hslotlt3 : st1.head < st3.history.length := by
    rw [hst3, linkStagePC_length]
    exact hslotlt2
  constructor
  · rw [hpair]
    show ((st3.assignCorrelation st1.head CorrelationKey.Page
        (st3.computePage a.addr)).advanceHead st1.head).sequenceCounter
        = st.sequenceCounter + 1
    rw [advanceHead_seqCounter, assignCorrelation_seqCounter, hst3,
      linkStagePC_seqCounter]
    have h2 : st2.sequenceCounter = st1.sequenceCounter + 1 := rfl
    rw [h2, hsc1]
  · rw [hpair]
    show (((st3.assignCorrelation st1.head CorrelationKey.Page
        (st3.computePage a.addr)).advanceHead st1.head).entryAt st.head).seq
        = st.sequenceCounter
    have hadv : ((st3.assignCorrelation st1.head CorrelationKey.Page
        (st3.computePage a.addr)).advanceHead st1.head).entryAt st.head
        = (st3.assignCorrelation st1.head CorrelationKey.Page
            (st3.computePage a.addr)).entryAt st.head := rfl
    rw [hadv, assignCorrelation_entryAt_seq _ _ _ _ _ hslotlt3, hst3,
      linkStagePC_entryAt_seq st2 st1.head a st.head hslotlt2]
    rw [← hhead1, hst2, writeEntry_entryAt_same st1 st1.head a.addr hslotlt1]
    show st1.sequenceCounter = st.sequenceCounter
    rw [hsc1]

theorem walk_stale (st : GHBHistory) (key : CorrelationKey) (cur fuel p : Nat)
    (hp : ((st.entryAt cur).link key).prev = some p)
    (hs : (st.entryAt p).seq ≠ ((st.entryAt cur).link key).prevSeq) :
    st.walk key cur (fuel + 1) = [] := by
  simp only [GHBHistory.walk, hp]
  rw [if_pos hs]

/-- C2: in every reachable predictor state each correlation index maps a
key value to at most one slot (the index is a partial function by
construction), and that slot is in range with a valid link record holding
the same key value — no dangling index entry; moreover insert redirects
the index mapping of each inserted key value (the page key always, the PC
key when enabled and present) to the freshly written slot, and evicting a
slot removes every index mapping of that slot that still points to it. -/
theorem index_invariant_spec :
    (∀ st, Reachable st → ∀ k v s, st.index k v = some s →
      s < st.history.length ∧ ((st.entryAt s).link k).keyValid = true ∧
      ((st.entryAt s).link k).keyValue = v) ∧
    (∀ st a, Reachable st →
      (st.insert a).2.index CorrelationKey.Page (a.addr / st.pageBytes)
        = some st.head ∧
      (∀ pcv, st.usePC = true → a.pc = some pcv →
        (st.insert a).2.index CorrelationKey.PC pcv = some st.head)) ∧
    (∀ st slot, Reachable st → slot < st.history.length →
      ∀ k v, (st.removeIndexMappings slot).index k v ≠ some slot) := by
  refine ⟨?_, ?_, ?_⟩
  · intro st h
    exact (reachable_inv st h).index_ok
  · intro st a h
    have hz : ¬ st.historySize = 0 := by
      have := (reachable_inv st h).size_pos
      omega
    obtain ⟨-, h2, h3⟩ := insert_redirect st a hz
    exact ⟨h2, h3⟩
  · intro st slot h hs
    exact removeIndexMappings_no_slot st slot hs (reachable_inv st h).index_ok

theorem index_invariant_spec_witness :
    (exBase.insert ⟨0, some 256⟩).2.index CorrelationKey.Page
      ((0 : Nat) / exBase.pageBytes) = some exBase.head ∧
    (exBase.insert ⟨0, some 256⟩).2.index CorrelationKey.PC 256
      = some exBase.head :=
  ⟨(index_invariant_spec.2.1 exBase ⟨0, some 256⟩
      (Reachable.init 16 4 2 true 64 50)).1,
   (index_invariant_spec.2.1 exBase ⟨0, some 256⟩
      (Reachable.init 16 4 2 true 64 50)).2 256 rfl rfl⟩

/-- C6: in every reachable state the sequence counter is at least 1,
strictly above the sequence number of every buffer entry, and any two
distinct live entries (non-zero sequence number) hold distinct sequence
numbers; insert assigns the current counter value to the written slot and
increments the counter by exactly one (so assigned numbers strictly
increase across the lifetime), reset restarts the counter at 1, the
pattern-table update never touches the counter, and the chain walk of
buildPattern immediately stops (following nothing) at a link whose
recorded predecessor-sequence differs from the current sequence number of
the predecessor slot, which is what happens when that slot has been
overwritten since link creation. -/
theorem sequence_spec :
    (∀ st, Reachable st →
      1 ≤ st.sequenceCounter ∧
      (∀ i, i < st.history.length →
        (st.entryAt i).seq < st.sequenceCounter) ∧
      (∀ i j, i < st.history.length → j < st.history.length → i ≠ j →
        (st.entryAt i).seq ≠ 0 →
        (st.entryAt i).seq ≠ (st.entryAt j).seq)) ∧
    (∀ st a, Reachable st →
      (st.insert a).2.sequenceCounter = st.sequenceCounter + 1 ∧
      ((st.insert a).2.entryAt st.head).seq = st.sequenceCounter ∧
      (st.insert a).1 = (st.head : Int)) ∧
    (∀ st : GHBHistory, st.reset.sequenceCounter = 1) ∧
    (∀ st : GHBHistory, ∀ chron,
      (st.updatePatternTable chron).sequenceCounter = st.sequenceCounter) ∧
    (∀ (st : GHBHistory) (key : CorrelationKey) (cur fuel p : Nat),
      ((st.entryAt cur).link key).prev = some p →
      (st.entryAt p).seq ≠ ((st.entryAt cur).link key).prevSeq →
      st.walk key cur (fuel + 1) = []) := by
  refine ⟨?_, ?_, ?_, ?_, ?_⟩
  · intro st h
    have hI := reachable_inv st h
    exact ⟨hI.seqc_pos, hI.seq_lt, hI.seq_distinct⟩
  · intro st a h
    have hI := reachable_inv st h
    have hz : ¬ st.historySize = 0 := by
      have := hI.size_pos
      omega
    obtain ⟨hs1, hs2⟩ := insert_seq st a hI
    exact ⟨hs1, hs2, (insert_redirect st a hz).1⟩
  · intro st
    rfl
  · intro st chron
    exact (updatePatternTable_frame st chron).2.2.2.2.2.2.2.2.2.2
  · intro st key cur fuel p hp hs
    exact walk_stale st key cur fuel p hp hs

theorem sequence_spec_witness :
    (exBase.insert ⟨0, some 256⟩).2.sequenceCounter
      = exBase.sequenceCounter + 1 ∧
    ((exBase.insert ⟨0, some 256⟩).2.entryAt exBase.head).seq
      = exBase.sequenceCounter ∧
    (exBase.insert ⟨0, some 256⟩).1 = (exBase.head : Int) :=
  sequence_spec.2.1 exBase ⟨0, some 256⟩ (Reachable.init 16 4 2 true 64 50)

/-- C9: for every reachable predictor state, reset yields exactly the state
of a freshly constructed predictor with the same configuration (history
cleared, both indices emptied, head and filled back to the initial values,
sequence counter restarted at 1, pattern table cleared); consequently any
operation sequence run after reset behaves as on a fresh predictor. -/
theorem reset_spec :
    ∀ st, Reachable st →
      st.reset = mkGHBHistory st.historySize st.patternLength st.degree
        st.usePC st.pageBytes st.confidenceThreshold ∧
      ∀ ops : List Op, applyOps st.reset ops
        = applyOps (mkGHBHistory st.historySize st.patternLength st.degree
            st.usePC st.pageBytes st.confidenceThreshold) ops := by
  intro st h
  have hI := reachable_inv st h
  have h1 : max 1 st.historySize = st.historySize :=
    Nat.max_eq_right hI.size_pos
  have h2 : max 1 st.patternLength = st.patternLength :=
    Nat.max_eq_right hI.plen_pos
  have h3 : max 1 st.degree = st.degree := Nat.max_eq_right hI.degree_pos
  have h4 : max 1 st.pageBytes = st.pageBytes := Nat.max_eq_right hI.page_pos
  have h5 : min 100 st.confidenceThreshold = st.confidenceThreshold :=
    Nat.min_eq_right hI.conf_le
  have hmap : st.history.map (fun _ => (default : GHBEntry))
      = List.replicate st.historySize default := by
    rw [map_const_eq_replicate, hI.len_eq]
  have hmain : st.reset = mkGHBHistory st.historySize st.patternLength
      st.degree st.usePC st.pageBytes st.confidenceThreshold := by
    unfold GHBHistory.reset mkGHBHistory
    rw [h1, h2, h3, h4, h5, hmap]
  exact ⟨hmain, fun ops => by rw [hmain]⟩

/-- Example predictor after one insertion, used by the C9 witness. -/
def exIns1 : GHBHistory := (exBase.insert ⟨0, some 256⟩).2

theorem reset_spec_witness :
    exIns1.reset = mkGHBHistory exIns1.historySize exIns1.patternLength
      exIns1.degree exIns1.usePC exIns1.pageBytes
      exIns1.confidenceThreshold ∧
    ∀ ops : List Op, applyOps exIns1.reset ops
      = applyOps (mkGHBHistory exIns1.historySize exIns1.patternLength
          exIns1.degree exIns1.usePC exIns1.pageBytes
          exIns1.confidenceThreshold) ops :=
  reset_spec exIns1 (Reachable.insertStep exBase ⟨0, some 256⟩
    (Reachable.init 16 4 2 true 64 50))

end GHB
